import Mathlib

/-!
Verification of the bounded-retry remediation orchestrator
(AUTONOMOUS-CI-CD-HEALING-AGENT backend).

This file is a shallow embedding, in Lean 4, of the parts of the TypeScript
backend that the specification's testable properties talk about:

* the sandboxed executor (backend/services/containerSandbox.ts:
  truncateOutput, runInContainer, runSubprocess) — JS strings are modelled
  as lists of characters, and the promise resolve/reject outcome of
  child_process.execFile is modelled by the ExecOutcome type;
* the scoring agent and test runner skip path
  (backend/agents/graphAgents.ts: scoringAgent;
  backend/services/testRunner.ts: executeTests, detectProjectType);
* retry-limit clamping (backend/server.ts: clampRetryLimit) — the JS number
  is modelled as Option ℚ, where none stands for a non-finite value (NaN /
  Infinity, i.e. anything for which Number() is not finite);
* the run store (backend/persistence/RunRepository.ts: create,
  transitionStatus, updateProgress, finalizeScoring, getFullResult;
  PatchRepository.recordIteration) — each transaction is one step of a
  state-transition function on an in-memory image of the tables, rows kept
  in id (= insertion) order;
* the orchestrator state machine (backend/agents/graphAgents.ts:
  plannerAgent, remediationAgent, verifierAgent, routeAfterVerification) —
  the external world (scan results, patch outcomes, real test runs) is an
  oracle consumed one entry per remediate/verify cycle;
* the issue scanner (backend/services/dockerSandbox.ts: detectIssuesInFile)
  and the patch engine (backend/services/patchEngine.ts: computeLineFix,
  patchSingleFile, applyAllPatches).  The small JS regexes are implemented
  as executable character-list matchers; the JS \s class is modelled by its
  ASCII + NBSP members (the ones that can occur inside a single line).
-/

/- ══════════════════════════ Shared data model ══════════════════════════ -/

/-- Bug categories, from backend/types/agent.ts ALLOWED_BUG_TYPES. -/
inductive BugType where
  | LINTING
  | SYNTAX
  | LOGIC
  | TYPE_ERROR
  | IMPORT
  | INDENTATION
deriving DecidableEq, Repr

/-- Run lifecycle status enumeration, from backend/types/agent.ts. -/
inductive RunStatus where
  | queued
  | running
  | completed
  | failed
deriving DecidableEq, Repr

/-- CI status enumeration used in the agent graph state. -/
inductive CiStatus where
  | pending
  | running
  | passed
  | failed
deriving DecidableEq, Repr

/-- Execution method recorded on a test result
(docker | subprocess | skipped). -/
inductive ExecutionMethod where
  | docker
  | subprocess
  | skipped
deriving DecidableEq, Repr

/- ══════════════ Sandboxed executor (containerSandbox.ts) ══════════════ -/

/-- Captured-output cap per stream, MAX_OUTPUT_BYTES = 10 * 1024. -/
def MAX_OUTPUT_BYTES : Nat := 10 * 1024

/-- Result record of a sandboxed execution (ContainerResult). -/
structure ContainerResult where
  exitCode : Int
  stdout : List Char
  stderr : List Char
  durationMs : Nat
  timedOut : Bool
deriving DecidableEq, Repr

/-- Elision marker inserted by truncateOutput, stating how many
characters were dropped from the head of the stream. -/
def elisionMarker (dropped : Nat) : List Char :=
  "…[truncated ".toList ++ (toString dropped).toList ++ " bytes]…\n".toList

/-- Model of truncateOutput: streams longer than the cap keep only their
tail, prefixed with the elision marker. -/
def truncateOutput (output : List Char) : List Char :=
  if output.length ≤ MAX_OUTPUT_BYTES then output
  else
    elisionMarker (output.length - MAX_OUTPUT_BYTES) ++
      output.drop (output.length - MAX_OUTPUT_BYTES)

/-- Outcome of the awaited execFile promise.  success carries the two
captured streams of an exit-0 process; failure carries the fields the
catch handler reads off the rejection value: killed (set by Node when the
timeout fired and the child was killed), code (the numeric exit code, or
none when the child was terminated by a signal or never spawned), and the
partial streams. -/
inductive ExecOutcome where
  | success (stdout stderr : List Char)
  | failure (killed : Bool) (code : Option Int) (stdout stderr : List Char)
deriving DecidableEq, Repr

/-- Stdout stream carried by an outcome. -/
def ExecOutcome.stdoutStream : ExecOutcome → List Char
  | .success o _ => o
  | .failure _ _ o _ => o

/-- Stderr stream carried by an outcome. -/
def ExecOutcome.stderrStream : ExecOutcome → List Char
  | .success _ e => e
  | .failure _ _ _ e => e

/-- Model of runSubprocess: the try branch maps a resolved promise to an
exit-0 result; the catch branch translates every rejection into a result
record — exit code e.code when numeric else 1, timedOut when the child
was killed or the measured duration reached timeoutMs - 1000. -/
def runSubprocess (outcome : ExecOutcome) (timeoutMs durationMs : Nat) :
    ContainerResult :=
  match outcome with
  | .success o e =>
      { exitCode := 0
        stdout := truncateOutput o
        stderr := truncateOutput e
        durationMs := durationMs
        timedOut := false }
  | .failure killed code o e =>
      { exitCode := match code with | some c => c | none => 1
        stdout := truncateOutput o
        stderr := truncateOutput e
        durationMs := durationMs
        timedOut := killed || (durationMs : Int) ≥ (timeoutMs : Int) - 1000 }

/-- Model of runInContainer: the docker invocation differs only in how the
argument vector is built (pure I/O); its try/catch result translation is
the same as the subprocess fallback. -/
def runInContainer (outcome : ExecOutcome) (timeoutMs durationMs : Nat) :
    ContainerResult :=
  match outcome with
  | .success o e =>
      { exitCode := 0
        stdout := truncateOutput o
        stderr := truncateOutput e
        durationMs := durationMs
        timedOut := false }
  | .failure killed code o e =>
      { exitCode := match code with | some c => c | none => 1
        stdout := truncateOutput o
        stderr := truncateOutput e
        durationMs := durationMs
        timedOut := killed || (durationMs : Int) ≥ (timeoutMs : Int) - 1000 }

/-- Timeout rejection shape: Node kills the child on timeout, so the
rejection has killed = true and a null exit code. -/
def timeoutOutcome (stdout stderr : List Char) : ExecOutcome :=
  .failure true none stdout stderr

/- ══════════════ Scoring (graphAgents.ts scoringAgent) ══════════════ -/

/-- Test execution result fields the scorer reads. -/
structure TestExecutionResult where
  passed : Bool
  exitCode : Int
  executionMethod : ExecutionMethod
deriving DecidableEq, Repr

/-- Base score derivation from scoringAgent: 70 when the execution was
skipped, else 100 on pass, else 40. -/
def baseScoreOf (testResults : TestExecutionResult) : Int :=
  if testResults.executionMethod = .skipped then 70
  else if testResults.passed then 100
  else 40

/-- Speed bonus: 10 when the elapsed seconds are under 300, else 0. -/
def speedBonusOf (executionTime : Nat) : Int :=
  if executionTime < 300 then 10 else 0

/-- Efficiency penalty: max(0, commitCount - 20) * 2. -/
def efficiencyPenaltyOf (commitCount : Nat) : Int :=
  max 0 ((commitCount : Int) - 20) * 2

/-- Elapsed-seconds derivation: at least 1, from the rounded wall clock. -/
def executionTimeOf (elapsedRoundedS : Nat) : Nat :=
  max 1 elapsedRoundedS

/-- Project configuration fields executeTests reads. -/
structure ProjectConfig where
  type : String
  installCmd : String
  testCmd : String
  buildCmd : String
  hasTests : Bool
deriving DecidableEq, Repr

/-- detectProjectType's fallback when no manifest is recognized. -/
def unknownProjectConfig : ProjectConfig :=
  { type := "unknown", installCmd := "", testCmd := "", buildCmd := ""
    hasTests := false }

/-- Result executeTests returns without running anything when neither a
test nor a build command exists. -/
def skippedTestResult : TestExecutionResult :=
  { passed := false, exitCode := -1, executionMethod := .skipped }

/-- Model of executeTests: the skip guard fires exactly when both command
strings are empty; otherwise the result of the real sandboxed run (docker
or subprocess) is reported, with passed tied to exit code 0. -/
def executeTests (config : ProjectConfig) (useDocker : Bool)
    (raw : ContainerResult) : TestExecutionResult :=
  if config.testCmd = "" ∧ config.buildCmd = "" then skippedTestResult
  else
    { passed := raw.exitCode = 0
      exitCode := raw.exitCode
      executionMethod := if useDocker then .docker else .subprocess }

/- ══════════════ Retry-limit clamping (server.ts) ══════════════ -/

/-- Model of clampRetryLimit.  The requested value is Option ℚ: none
stands for an input whose Number() conversion is not finite (non-numeric
strings, NaN, ±Infinity); some q is a finite numeric value.  defaultLimit
is DEFAULT_RETRY_LIMIT (5 unless AGENT_RETRY_LIMIT overrides it). -/
def clampRetryLimit (defaultLimit : Int) (value : Option ℚ) : Int :=
  match value with
  | none => defaultLimit
  | some q => min 20 (max 1 ⌊q⌋)

/- ══════════════ Run store (RunRepository.ts / PatchRepository.ts) ══════ -/

/-- Status-transition audit row (status_transitions table). -/
structure TransitionRow where
  fromStatus : Option RunStatus
  toStatus : RunStatus
  reason : String
deriving DecidableEq, Repr

/-- Patch row as recorded by PatchRepository.recordIteration
(patches table; description column holds the FixRow commitMessage,
status column the FixRow status). -/
structure PatchRow where
  iteration : Nat
  filePath : String
  bugType : BugType
  lineNumber : Nat
  description : String
  status : String
deriving DecidableEq, Repr

/-- Timeline row (timeline_entries table). -/
structure TimelineRow where
  iteration : Nat
  result : String
  retryCount : Nat
  retryLimit : Nat
deriving DecidableEq, Repr

/-- Fix row shape produced by the remediation agent (FixRow). -/
structure FixRow where
  filePath : String
  bugType : BugType
  lineNumber : Nat
  commitMessage : String
  status : String
deriving DecidableEq, Repr

/-- Timeline entry shape held in the agent graph state (TimelineEntry). -/
structure TimelineEntry where
  iteration : Nat
  result : String
  retryCount : Nat
  retryLimit : Nat
deriving DecidableEq, Repr

/-- Run row image: the fields of the runs table that the audited write
paths touch.  progress stands for the sparse columns updateProgress may
set (none of which is the status column). -/
structure RunRow where
  status : RunStatus
  error : Option String
  finished : Bool
deriving DecidableEq, Repr

/-- Store image for one run: its runs row (none before create) and its
child table rows in id order (identity columns are append-ordered). -/
structure RunStore where
  run : Option RunRow
  transitions : List TransitionRow
  patches : List PatchRow
  timelineRows : List TimelineRow
deriving DecidableEq, Repr

/-- Empty store, before any transaction for the run committed. -/
def RunStore.empty : RunStore :=
  { run := none, transitions := [], patches := [], timelineRows := [] }

/-- RunRepository.create: one transaction inserting the run row with
status running plus the initial transition row.  A duplicate insert
violates the primary key, aborting the transaction (store unchanged). -/
def RunStore.create (st : RunStore) : RunStore :=
  match st.run with
  | some _ => st
  | none =>
      { st with
        run := some { status := .running, error := none, finished := false }
        transitions := st.transitions ++
          [{ fromStatus := none, toStatus := .running, reason := "Run created" }] }

/-- RunRepository.transitionStatus: one transaction that locks the run
row, updates its status (plus optional error / finished_at) and appends
the matching transition row.  Without a run row the transition insert
violates the run_id foreign key and the transaction aborts. -/
def RunStore.transitionStatus (st : RunStore) (toStatus : RunStatus)
    (reason : String) (err : Option String) (setFinished : Bool) : RunStore :=
  match st.run with
  | none => st
  | some r =>
      { st with
        run := some { status := toStatus
                      error := match err with | some e => some e | none => r.error
                      finished := r.finished || setFinished }
        transitions := st.transitions ++
          [{ fromStatus := some r.status, toStatus := toStatus, reason := reason }] }

/-- RunRepository.updateProgress: a sparse update of counter / summary
columns; the status column and the transition table are untouched. -/
def RunStore.updateProgress (st : RunStore) : RunStore := st

/-- RunRepository.finalizeScoring: one transaction writing the scoring
columns, setting status completed and finished_at, and appending the
matching transition row (same lock-then-audit discipline). -/
def RunStore.finalizeScoring (st : RunStore) : RunStore :=
  match st.run with
  | none => st
  | some r =>
      { st with
        run := some { status := .completed, error := r.error, finished := true }
        transitions := st.transitions ++
          [{ fromStatus := some r.status, toStatus := .completed
             reason := "Scoring finalized" }] }

/-- PatchRepository.recordIteration: one transaction inserting every
patch row of the iteration followed by its one timeline row. -/
def RunStore.recordIteration (st : RunStore) (iteration : Nat)
    (patches : List FixRow) (entry : TimelineEntry) : RunStore :=
  { st with
    patches := st.patches ++ patches.map (fun p =>
      { iteration := iteration
        filePath := p.filePath
        bugType := p.bugType
        lineNumber := p.lineNumber
        description := p.commitMessage
        status := p.status })
    timelineRows := st.timelineRows ++
      [{ iteration := entry.iteration, result := entry.result
         retryCount := entry.retryCount, retryLimit := entry.retryLimit }] }

/-- One committed write transaction against the run's rows. -/
inductive StoreOp where
  | create
  | transition (toStatus : RunStatus) (reason : String)
      (err : Option String) (setFinished : Bool)
  | progress
  | finalize
  | record (iteration : Nat) (patches : List FixRow) (entry : TimelineEntry)
deriving Repr

/-- Apply one transaction to the store image. -/
def StoreOp.apply (st : RunStore) : StoreOp → RunStore
  | .create => st.create
  | .transition toStatus reason err setFinished =>
      st.transitionStatus toStatus reason err setFinished
  | .progress => st.updateProgress
  | .finalize => st.finalizeScoring
  | .record iteration patches entry => st.recordIteration iteration patches entry

/-- Store resulting from a sequence of committed transactions. -/
def runStoreOf (ops : List StoreOp) : RunStore :=
  ops.foldl StoreOp.apply RunStore.empty

/-- Replay of an ordered transition sequence: the status reached after
applying every to_status in order. -/
def replayTransitions (rows : List TransitionRow) : Option RunStatus :=
  rows.foldl (fun _ row => some row.toStatus) none

/-- Audit-trail invariant of a store image: the run row exists exactly
when a transition was recorded, the last to_status equals the run's
status field, and replaying the sequence reproduces it. -/
def auditInvariant (st : RunStore) : Prop :=
  match st.run with
  | none => st.transitions = []
  | some r =>
      st.transitions ≠ [] ∧
      (st.transitions.map TransitionRow.toStatus).getLast? = some r.status ∧
      replayTransitions st.transitions = some r.status

/-- Denormalized fixes table assembled by RunRepository.getFullResult:
every patches row of the run, in id order, mapped back to a FixRow. -/
def RunStore.fixesTable (st : RunStore) : List FixRow :=
  st.patches.map (fun p =>
    { filePath := p.filePath
      bugType := p.bugType
      lineNumber := p.lineNumber
      commitMessage := p.description
      status := p.status })

/-- Denormalized timeline assembled by getFullResult: every
timeline_entries row of the run, in id order. -/
def RunStore.timelineView (st : RunStore) : List TimelineEntry :=
  st.timelineRows.map (fun t =>
    { iteration := t.iteration, result := t.result
      retryCount := t.retryCount, retryLimit := t.retryLimit })

/- ══════════════ Orchestrator state machine (graphAgents.ts) ══════════════ -/

/-- Transient issue record produced by the scanner (DetectedIssue). -/
structure DetectedIssue where
  filePath : String
  bugType : BugType
  lineNumber : Nat
  fixSuggestion : String
deriving DecidableEq, Repr

/-- Per-issue outcome of the patch engine (PatchResult). -/
structure PatchResult where
  filePath : String
  bugType : BugType
  lineNumber : Nat
  applied : Bool
  description : String
deriving DecidableEq, Repr

/-- Agent graph state fields driving the retry loop. -/
structure PipelineState where
  retryLimit : Nat
  currentIteration : Nat
  ciStatus : CiStatus
  timeline : List TimelineEntry
  fixesTable : List FixRow
  commitCount : Nat
deriving DecidableEq, Repr

/-- External-world inputs consumed by one remediate/verify cycle: the
outstanding issues from the last scan, the patch engine's outcome for
them, whether stageAndCommit produced a commit, and whether the real
verification test run passed (exit code 0). -/
structure IterationOracle where
  issues : List DetectedIssue
  patchResults : List PatchResult
  commitMade : Bool
  testsPassed : Bool
deriving Repr

/-- Arguments of the PatchRepository.recordIteration call an iteration
issues. -/
structure RecordCall where
  iteration : Nat
  patches : List FixRow
  entry : TimelineEntry
deriving DecidableEq, Repr

/-- State after plannerAgent and analyzerAgent: counters initialized to
zero and the CI status computed from the baseline run (running, or
passed when the baseline passed with no static issues). -/
def initPipelineState (retryLimit : Nat) (ciAfterAnalyze : CiStatus) :
    PipelineState :=
  { retryLimit := retryLimit, currentIteration := 0
    ciStatus := ciAfterAnalyze, timeline := [], fixesTable := []
    commitCount := 0 }

/-- Model of remediationAgent.  With no outstanding issues it records a
single passed timeline entry with zero patches and sets CI status
passed; otherwise it converts the patch results into fix rows (applied
rows first, then failed ones), counts a commit when one was made,
appends the iteration's timeline entry (failed when any patch failed to
apply) and records patches plus entry atomically.  Returns the updated
state and the recordIteration call. -/
def remediationAgent (st : PipelineState) (o : IterationOracle) :
    PipelineState × RecordCall :=
  let iteration := st.currentIteration + 1
  if o.issues = [] then
    let entry : TimelineEntry :=
      { iteration := iteration, result := "passed"
        retryCount := iteration, retryLimit := st.retryLimit }
    ({ st with
        currentIteration := iteration
        ciStatus := .passed
        timeline := st.timeline ++ [entry] },
     { iteration := iteration, patches := [], entry := entry })
  else
    let applied := o.patchResults.filter (fun p => p.applied)
    let failed := o.patchResults.filter (fun p => !p.applied)
    let newFixes : List FixRow :=
      applied.map (fun p =>
        { filePath := p.filePath, bugType := p.bugType
          lineNumber := p.lineNumber, commitMessage := p.description
          status := "passed" }) ++
      failed.map (fun p =>
        { filePath := p.filePath, bugType := p.bugType
          lineNumber := p.lineNumber, commitMessage := p.description
          status := "failed" })
    let commitCount :=
      if applied ≠ [] ∧ o.commitMade then st.commitCount + 1 else st.commitCount
    let entry : TimelineEntry :=
      { iteration := iteration
        result := if failed ≠ [] then "failed" else "passed"
        retryCount := iteration, retryLimit := st.retryLimit }
    ({ st with
        currentIteration := iteration
        timeline := st.timeline ++ [entry]
        fixesTable := st.fixesTable ++ newFixes
        commitCount := commitCount },
     { iteration := iteration, patches := newFixes, entry := entry })

/-- Model of verifierAgent: a short-circuit when CI already passed;
otherwise the CI status is driven by the real test exit code. -/
def verifierAgent (st : PipelineState) (testsPassed : Bool) : PipelineState :=
  if st.ciStatus = .passed then st
  else { st with ciStatus := if testsPassed then .passed else .failed }

/-- Model of routeAfterVerification: to the scorer when CI passed or the
iteration counter reached the retry limit, else back to the remediator. -/
def routeAfterVerification (st : PipelineState) : String :=
  if st.ciStatus = .passed then "scorer"
  else if st.retryLimit ≤ st.currentIteration then "scorer"
  else "remediator"

/-- Driver of the single back edge of the compiled graph: run
remediator then verifier, stop when the conditional edge routes to the
scorer, else loop.  The oracle list bounds how much of the world is
available; the loop also stops when it is exhausted. -/
def pipelineLoop (st : PipelineState) : List IterationOracle → PipelineState
  | [] => st
  | o :: rest =>
      let st1 := verifierAgent (remediationAgent st o).1 o.testsPassed
      if routeAfterVerification st1 = "scorer" then st1
      else pipelineLoop st1 rest

/- ══════════════════════════ Claim C4 ══════════════════════════ -/

/-- Helper: elements dropped by truncation. -/
lemma truncateOutput_of_le {s : List Char} (h : s.length ≤ MAX_OUTPUT_BYTES) :
    truncateOutput s = s := by
  simp [truncateOutput, h]

/-- Helper: shape of a truncated stream. -/
lemma truncateOutput_of_lt {s : List Char} (h : MAX_OUTPUT_BYTES < s.length) :
    truncateOutput s =
      elisionMarker (s.length - MAX_OUTPUT_BYTES) ++
        s.drop (s.length - MAX_OUTPUT_BYTES) := by
  simp [truncateOutput, Nat.not_le.mpr h]

/-- C4: the sandboxed executor (container path and subprocess fallback)
always returns a result record — every resolve/reject outcome, including
spawn errors and timeout kills, is translated into a ContainerResult
whose streams are the truncated captures; a timeout (child killed, null
exit code) yields timedOut = true and the non-zero exit code 1; a stream
over the 10 KB cap keeps exactly its tail, prefixed with an elision
marker stating how many characters were dropped. -/
theorem c4_executor_never_throws_timeout_truncation
    (o : ExecOutcome) (t d : Nat) (so se s : List Char)
    (hlong : MAX_OUTPUT_BYTES < s.length) :
    (runSubprocess (timeoutOutcome so se) t d).timedOut = true ∧
    (runSubprocess (timeoutOutcome so se) t d).exitCode ≠ 0 ∧
    (runInContainer (timeoutOutcome so se) t d).timedOut = true ∧
    (runInContainer (timeoutOutcome so se) t d).exitCode ≠ 0 ∧
    (runSubprocess o t d).stdout = truncateOutput o.stdoutStream ∧
    (runSubprocess o t d).stderr = truncateOutput o.stderrStream ∧
    (runInContainer o t d).stdout = truncateOutput o.stdoutStream ∧
    (runInContainer o t d).stderr = truncateOutput o.stderrStream ∧
    (runSubprocess o t d).durationMs = d ∧
    truncateOutput s =
      elisionMarker (s.length - MAX_OUTPUT_BYTES) ++
        s.drop (s.length - MAX_OUTPUT_BYTES) ∧
    (truncateOutput s).drop ((truncateOutput s).length - MAX_OUTPUT_BYTES) =
      s.drop (s.length - MAX_OUTPUT_BYTES) := by
  refine ⟨rfl, by simp [runSubprocess, timeoutOutcome], rfl,
    by simp [runInContainer, timeoutOutcome], ?_, ?_, ?_, ?_, ?_, ?_, ?_⟩
  · cases o <;> rfl
  · cases o <;> rfl
  · cases o <;> rfl
  · cases o <;> rfl
  · cases o <;> rfl
  · exact truncateOutput_of_lt hlong
  · rw [truncateOutput_of_lt hlong]
    have hdrop : (s.drop (s.length - MAX_OUTPUT_BYTES)).length =
        MAX_OUTPUT_BYTES := by
      rw [List.length_drop]
      omega
    rw [List.length_append, hdrop, Nat.add_sub_cancel,
      List.drop_left]

/-- Witness for C4 at a concrete long stream. -/
theorem c4_executor_witness :
    MAX_OUTPUT_BYTES < (List.replicate 10241 'a').length ∧
    (runSubprocess (timeoutOutcome [] []) 1000 2000).timedOut = true := by
  have hlen : MAX_OUTPUT_BYTES < (List.replicate 10241 'a').length := by
    rw [List.length_replicate]
    norm_num [MAX_OUTPUT_BYTES]
  exact ⟨hlen, (c4_executor_never_throws_timeout_truncation (.success [] [])
    1000 2000 [] [] (List.replicate 10241 'a') hlen).1⟩

/- ══════════════════════════ Claim C7 ══════════════════════════ -/

/-- C7: base score is 70 when execution was skipped (unrecognized project
type: executeTests on the unknown config reports method skipped without
running anything), 100 when the final execution passed, 40 when it ran
and failed; the speed bonus is 10 exactly under the 300 s threshold and
0 otherwise; the efficiency penalty is max(0, commitCount - 20) * 2. -/
theorem c7_scoring_values (p : Bool) (e : Int) (elapsed cc : Nat)
    (ud : Bool) (raw : ContainerResult) :
    baseScoreOf { passed := p, exitCode := e, executionMethod := .skipped } = 70 ∧
    baseScoreOf { passed := true, exitCode := e, executionMethod := .docker } = 100 ∧
    baseScoreOf { passed := true, exitCode := e, executionMethod := .subprocess } = 100 ∧
    baseScoreOf { passed := false, exitCode := e, executionMethod := .docker } = 40 ∧
    baseScoreOf { passed := false, exitCode := e, executionMethod := .subprocess } = 40 ∧
    ((elapsed < 300 ∧ speedBonusOf elapsed = 10) ∨
      (300 ≤ elapsed ∧ speedBonusOf elapsed = 0)) ∧
    ((cc ≤ 20 ∧ efficiencyPenaltyOf cc = 0) ∨
      (20 < cc ∧ efficiencyPenaltyOf cc = 2 * ((cc : Int) - 20))) ∧
    executeTests unknownProjectConfig ud raw = skippedTestResult ∧
    skippedTestResult.executionMethod = .skipped ∧
    baseScoreOf skippedTestResult = 70 := by
  refine ⟨rfl, rfl, rfl, rfl, rfl, ?_, ?_, rfl, rfl, rfl⟩
  · by_cases h : elapsed < 300
    · exact Or.inl ⟨h, by simp [speedBonusOf, h]⟩
    · exact Or.inr ⟨Nat.le_of_not_lt h, by simp [speedBonusOf, h]⟩
  · by_cases h : cc ≤ 20
    · refine Or.inl ⟨h, ?_⟩
      have : (cc : Int) - 20 ≤ 0 := by
        omega
      simp [efficiencyPenaltyOf, max_eq_left this]
    · refine Or.inr ⟨Nat.lt_of_not_le h, ?_⟩
      have : (0 : Int) ≤ (cc : Int) - 20 := by
        omega
      rw [efficiencyPenaltyOf, max_eq_right this, mul_comm]

/- ══════════════════════════ Claim C10 ══════════════════════════ -/

/-- C10: the retry limit used by a run is an integer in [1, 20]; a
non-finite requested value falls back to the configured default, and a
finite one is floored then clamped, so 0 and negatives become 1 and
values above 20 become 20. -/
theorem c10_clamp_retry_limit (d : Int) (q : ℚ)
    (hd : 1 ≤ d ∧ d ≤ 20) :
    clampRetryLimit d none = d ∧
    (1 ≤ clampRetryLimit d none ∧ clampRetryLimit d none ≤ 20) ∧
    (1 ≤ clampRetryLimit d (some q) ∧ clampRetryLimit d (some q) ≤ 20) ∧
    (q ≤ 0 → clampRetryLimit d (some q) = 1) ∧
    (20 < q → clampRetryLimit d (some q) = 20) ∧
    (∀ n : ℤ, clampRetryLimit d (some (n : ℚ)) = min 20 (max 1 n)) := by
  refine ⟨rfl, ⟨hd.1, hd.2⟩, ⟨?_, ?_⟩, ?_, ?_, ?_⟩
  · simp only [clampRetryLimit]
    omega
  · simp only [clampRetryLimit]
    omega
  · intro hq
    have hfl : ⌊q⌋ ≤ 0 := Int.floor_nonpos hq
    simp only [clampRetryLimit]
    omega
  · intro hq
    have hfl : (20 : ℤ) ≤ ⌊q⌋ := by
      rw [Int.le_floor]
      exact_mod_cast le_of_lt hq
    simp only [clampRetryLimit]
    omega
  · intro n
    simp [clampRetryLimit]

/-- Witness for C10 with the unoverridden default of 5. -/
theorem c10_clamp_retry_limit_witness :
    ((1 : Int) ≤ 5 ∧ (5 : Int) ≤ 20) ∧ clampRetryLimit 5 none = 5 := by
  exact ⟨by decide, (c10_clamp_retry_limit 5 0 (by decide)).1⟩

/- ══════════════════════════ Claim C8 ══════════════════════════ -/

/-- Helper: replay of an extended sequence ends at the appended row. -/
lemma replayTransitions_append (rows : List TransitionRow) (row : TransitionRow) :
    replayTransitions (rows ++ [row]) = some row.toStatus := by
  simp [replayTransitions]

/-- Helper: last to_status of an extended sequence is the appended one. -/
lemma map_toStatus_getLast?_append (rows : List TransitionRow)
    (row : TransitionRow) :
    ((rows ++ [row]).map TransitionRow.toStatus).getLast? =
      some row.toStatus := by
  simp

/-- Helper: every committed transaction preserves the audit invariant. -/
lemma auditInvariant_apply (st : RunStore) (op : StoreOp)
    (h : auditInvariant st) : auditInvariant (op.apply st) := by
  cases op with
  | create =>
      cases hrun : st.run with
      | some r =>
          simpa [StoreOp.apply, RunStore.create, hrun] using
            (by rw [auditInvariant, hrun] at h; exact (by rw [auditInvariant, hrun]; exact h))
      | none =>
          rw [auditInvariant, hrun] at h
          rw [StoreOp.apply, RunStore.create, hrun, auditInvariant]
          simp [h, replayTransitions]
  | transition toStatus reason err setFinished =>
      cases hrun : st.run with
      | some r =>
          rw [StoreOp.apply, RunStore.transitionStatus, hrun, auditInvariant]
          simp [replayTransitions_append]
      | none =>
          rw [StoreOp.apply, RunStore.transitionStatus, hrun, auditInvariant, hrun]
          rw [auditInvariant, hrun] at h
          exact h
  | progress =>
      simpa [StoreOp.apply, RunStore.updateProgress] using h
  | finalize =>
      cases hrun : st.run with
      | some r =>
          rw [StoreOp.apply, RunStore.finalizeScoring, hrun, auditInvariant]
          simp [replayTransitions_append]
      | none =>
          rw [StoreOp.apply, RunStore.finalizeScoring, hrun, auditInvariant, hrun]
          rw [auditInvariant, hrun] at h
          exact h
  | record iteration patches entry =>
      rw [auditInvariant] at h ⊢
      cases hrun : st.run with
      | some r =>
          rw [hrun] at h
          simpa [StoreOp.apply, RunStore.recordIteration, hrun] using h
      | none =>
          rw [hrun] at h
          simpa [StoreOp.apply, RunStore.recordIteration, hrun] using h

/-- Helper: the invariant holds along any transaction sequence. -/
lemma auditInvariant_foldl (ops : List StoreOp) :
    ∀ st : RunStore, auditInvariant st →
      auditInvariant (ops.foldl StoreOp.apply st) := by
  induction ops with
  | nil => exact fun st h => h
  | cons op rest ih =>
      intro st h
      exact ih (op.apply st) (auditInvariant_apply st op h)

/-- C8: after any sequence of committed write transactions, the last
to_status of the run's append-only transition sequence equals the run
row's status field — every status-column write appends its matching
transition row in the same transaction — and replaying the ordered
transition sequence reproduces the run's final status. -/
theorem c8_status_transition_audit (ops : List StoreOp) :
    auditInvariant (runStoreOf ops) := by
  apply auditInvariant_foldl
  rw [auditInvariant]
  rfl

/- ══════════════════════════ Claims C2 / C3 / C9 ══════════════════════════ -/

/-- Helper: the remediator bumps the iteration counter by one, appends
exactly one timeline entry for the new iteration, and leaves the retry
limit untouched. -/
lemma remediationAgent_spec (st : PipelineState) (o : IterationOracle) :
    ((remediationAgent st o).1).currentIteration = st.currentIteration + 1 ∧
    ((remediationAgent st o).1).retryLimit = st.retryLimit ∧
    ((remediationAgent st o).1).timeline =
      st.timeline ++ [(remediationAgent st o).2.entry] ∧
    (remediationAgent st o).2.entry.iteration = st.currentIteration + 1 := by
  rw [remediationAgent]
  by_cases h : o.issues = [] <;> simp [h]

/-- Helper: the verifier changes only the CI status. -/
lemma verifierAgent_spec (st : PipelineState) (b : Bool) :
    (verifierAgent st b).currentIteration = st.currentIteration ∧
    (verifierAgent st b).retryLimit = st.retryLimit ∧
    (verifierAgent st b).timeline = st.timeline := by
  rw [verifierAgent]
  by_cases h : st.ciStatus = .passed <;> simp [h]

/-- Helper: loop invariant — starting strictly below the retry limit,
every timeline entry ever appended carries an iteration number at most
the final counter, which itself never exceeds the limit, the limit is
stable, and iteration numbers increase strictly along the timeline. -/
lemma pipelineLoop_invariant (oracle : List IterationOracle) :
    ∀ st : PipelineState,
      st.currentIteration < st.retryLimit →
      (∀ e ∈ st.timeline, e.iteration ≤ st.currentIteration) →
      List.Sorted (· < ·) (st.timeline.map TimelineEntry.iteration) →
      (pipelineLoop st oracle).retryLimit = st.retryLimit ∧
      (pipelineLoop st oracle).currentIteration ≤ st.retryLimit ∧
      (∀ e ∈ (pipelineLoop st oracle).timeline,
        e.iteration ≤ (pipelineLoop st oracle).currentIteration) ∧
      List.Sorted (· < ·)
        ((pipelineLoop st oracle).timeline.map TimelineEntry.iteration) := by
  induction oracle with
  | nil =>
      intro st hlt hbound hsorted
      exact ⟨rfl, le_of_lt hlt, hbound, hsorted⟩
  | cons o rest ih =>
      intro st hlt hbound hsorted
      rw [pipelineLoop]
      set stR := (remediationAgent st o).1 with hstR
      set st1 := verifierAgent stR o.testsPassed with hst1
      obtain ⟨hRcur, hRlim, hRtl, hRit⟩ := remediationAgent_spec st o
      obtain ⟨hVcur, hVlim, hVtl⟩ := verifierAgent_spec stR o.testsPassed
      have hcur1 : st1.currentIteration = st.currentIteration + 1 := by
        rw [hVcur, hRcur]
      have hlim1 : st1.retryLimit = st.retryLimit := by
        rw [hVlim, hRlim]
      have htl1 : st1.timeline = st.timeline ++ [(remediationAgent st o).2.entry] := by
        rw [hVtl, hRtl]
      have hbound1 : ∀ e ∈ st1.timeline, e.iteration ≤ st1.currentIteration := by
        intro e he
        rw [htl1, List.mem_append] at he
        rcases he with he | he
        · exact le_trans (hbound e he) (by omega)
        · simp only [List.mem_singleton] at he
          rw [he, hRit, hcur1]
      have hsorted1 :
          List.Sorted (· < ·) (st1.timeline.map TimelineEntry.iteration) := by
        rw [htl1, List.map_append, List.Sorted, List.pairwise_append]
        refine ⟨hsorted, by simp, ?_⟩
        intro a ha b hb
        simp only [List.mem_map] at ha hb
        obtain ⟨ea, hea, haeq⟩ := ha
        obtain ⟨eb, heb, hbeq⟩ := hb
        simp only [List.mem_singleton] at heb
        rw [← haeq, ← hbeq, heb, hRit]
        exact lt_of_le_of_lt (hbound ea hea) (by omega)
      by_cases hroute : routeAfterVerification st1 = "scorer"
      · rw [if_pos hroute]
        exact ⟨hlim1, by omega, hbound1, hsorted1⟩
      · rw [if_neg hroute]
        have hlt1 : st1.currentIteration < st1.retryLimit := by
          rw [routeAfterVerification] at hroute
          by_cases hp : st1.ciStatus = .passed
          · rw [if_pos hp] at hroute
            exact absurd rfl hroute
          · rw [if_neg hp] at hroute
            by_cases hge : st1.retryLimit ≤ st1.currentIteration
            · rw [if_pos hge] at hroute
              exact absurd rfl hroute
            · exact Nat.lt_of_not_le hge
        obtain ⟨a, b, c, d⟩ := ih st1 hlt1 hbound1 hsorted1
        exact ⟨by rw [a, hlim1], by rw [← hlim1]; omega, c, d⟩

/-- C2: for every run with retry limit at least 1, the iteration number
of every timeline entry recorded by the loop, and the final
current-iteration counter, never exceed the configured retry limit. -/
theorem c2_iteration_bounded_by_retry_limit (retryLimit : Nat)
    (ciAfterAnalyze : CiStatus) (oracle : List IterationOracle)
    (hR : 1 ≤ retryLimit) :
    (pipelineLoop (initPipelineState retryLimit ciAfterAnalyze)
        oracle).currentIteration ≤ retryLimit ∧
    ∀ e ∈ (pipelineLoop (initPipelineState retryLimit ciAfterAnalyze)
        oracle).timeline, e.iteration ≤ retryLimit := by
  have h := pipelineLoop_invariant oracle
    (initPipelineState retryLimit ciAfterAnalyze)
    (by simpa [initPipelineState] using hR)
    (by simp [initPipelineState])
    (by simp [initPipelineState])
  refine ⟨h.2.1, fun e he => le_trans (h.2.2.1 e he) h.2.1⟩

/-- Witness for C2: a run capped at limit 3 under an always-failing
oracle ends with its counter within the limit. -/
theorem c2_iteration_bounded_witness :
    1 ≤ 3 ∧
    (pipelineLoop (initPipelineState 3 .running)
        (List.replicate 5
          { issues := [{ filePath := "repo/a.ts", bugType := .LINTING
                         lineNumber := 1
                         fixSuggestion := "remove trailing whitespace" }]
            patchResults := [], commitMade := false
            testsPassed := false })).currentIteration ≤ 3 :=
  ⟨by decide,
    (c2_iteration_bounded_by_retry_limit 3 .running _ (by decide)).1⟩

/-- Oracle entry of a cycle in which issues remain, no patch outcome is
reported, and the real verification run fails. -/
def failingCycle : IterationOracle :=
  { issues := [{ filePath := "repo/a.ts", bugType := .LINTING
                 lineNumber := 1
                 fixSuggestion := "remove trailing whitespace" }]
    patchResults := [], commitMade := false, testsPassed := false }

/-- C3: after verification the pipeline advances to scoring exactly when
CI status is passed or the iteration counter has reached the retry
limit, and otherwise routes back to remediation; concretely, with retry
limit 3 and a world in which CI never passes, exactly three
remediate/verify cycles run (timeline iterations 1, 2, 3) and the loop
then stops for scoring with CI status failed, whatever oracle remains. -/
theorem c3_route_and_three_cycle_scenario (st : PipelineState)
    (rest : List IterationOracle) :
    (routeAfterVerification st = "scorer" ↔
      (st.ciStatus = .passed ∨ st.retryLimit ≤ st.currentIteration)) ∧
    (routeAfterVerification st = "scorer" ∨
      routeAfterVerification st = "remediator") ∧
    pipelineLoop (initPipelineState 3 .running)
        (failingCycle :: failingCycle :: failingCycle :: rest) =
      { retryLimit := 3, currentIteration := 3, ciStatus := .failed
        timeline :=
          [{ iteration := 1, result := "passed", retryCount := 1, retryLimit := 3 },
           { iteration := 2, result := "passed", retryCount := 2, retryLimit := 3 },
           { iteration := 3, result := "passed", retryCount := 3, retryLimit := 3 }]
        fixesTable := [], commitCount := 0 } := by
  refine ⟨?_, ?_, ?_⟩
  · rw [routeAfterVerification]
    by_cases hp : st.ciStatus = .passed
    · simp [hp]
    · rw [if_neg hp]
      by_cases hge : st.retryLimit ≤ st.currentIteration
      · simp [hp, hge]
      · simp [hp, hge]
  · rw [routeAfterVerification]
    by_cases hp : st.ciStatus = .passed
    · simp [hp]
    · rw [if_neg hp]
      by_cases hge : st.retryLimit ≤ st.currentIteration
      · simp [hge]
      · simp [hge]
  · rfl

/-- C9: a remediation cycle that sees zero outstanding issues records
exactly one timeline entry with result passed together with zero patch
rows, sets CI status to passed, and the loop exits immediately — the
verifier keeps the passed status and the conditional edge routes to the
scorer without consuming further oracle entries. -/
theorem c9_zero_issues_single_passed_entry (st : PipelineState)
    (o : IterationOracle) (rest : List IterationOracle)
    (h : o.issues = []) :
    (remediationAgent st o).2.patches = [] ∧
    (remediationAgent st o).2.entry.result = "passed" ∧
    (remediationAgent st o).2.entry.iteration = st.currentIteration + 1 ∧
    ((remediationAgent st o).1).timeline =
      st.timeline ++ [(remediationAgent st o).2.entry] ∧
    ((remediationAgent st o).1).ciStatus = .passed ∧
    (verifierAgent (remediationAgent st o).1 o.testsPassed).ciStatus = .passed ∧
    routeAfterVerification
      (verifierAgent (remediationAgent st o).1 o.testsPassed) = "scorer" ∧
    pipelineLoop st (o :: rest) =
      verifierAgent (remediationAgent st o).1 o.testsPassed := by
  have hpassed : ((remediationAgent st o).1).ciStatus = .passed := by
    rw [remediationAgent]
    simp [h]
  have hver : verifierAgent (remediationAgent st o).1 o.testsPassed =
      (remediationAgent st o).1 := by
    rw [verifierAgent, if_pos hpassed]
  have hroute : routeAfterVerification
      (verifierAgent (remediationAgent st o).1 o.testsPassed) = "scorer" := by
    rw [hver, routeAfterVerification, if_pos hpassed]
  refine ⟨?_, ?_, ?_, ?_, hpassed, by rw [hver]; exact hpassed, hroute, ?_⟩
  · rw [remediationAgent]
    simp [h]
  · rw [remediationAgent]
    simp [h]
  · exact (remediationAgent_spec st o).2.2.2
  · exact (remediationAgent_spec st o).2.2.1
  · rw [pipelineLoop, if_pos hroute]

/-- Witness for C9 at a concrete state and oracle. -/
theorem c9_zero_issues_witness :
    ({ issues := [], patchResults := [], commitMade := false
       testsPassed := false } : IterationOracle).issues = [] ∧
    (remediationAgent (initPipelineState 5 .running)
      { issues := [], patchResults := [], commitMade := false
        testsPassed := false }).2.patches = [] :=
  ⟨rfl,
    (c9_zero_issues_single_passed_entry (initPipelineState 5 .running)
      { issues := [], patchResults := [], commitMade := false
        testsPassed := false } [] rfl).1⟩

/- ══════════════════════════ Claim C1 ══════════════════════════ -/

/-- Total number of patch rows inserted by a transaction sequence. -/
def recordedPatchCount : List StoreOp → Nat
  | [] => 0
  | .record _ ps _ :: rest => ps.length + recordedPatchCount rest
  | .create :: rest => recordedPatchCount rest
  | .transition _ _ _ _ :: rest => recordedPatchCount rest
  | .progress :: rest => recordedPatchCount rest
  | .finalize :: rest => recordedPatchCount rest

/-- Iteration numbers of the timeline entries a transaction sequence
inserts, in insertion order. -/
def recordedEntryIterations : List StoreOp → List Nat
  | [] => []
  | .record _ _ e :: rest => e.iteration :: recordedEntryIterations rest
  | .create :: rest => recordedEntryIterations rest
  | .transition _ _ _ _ :: rest => recordedEntryIterations rest
  | .progress :: rest => recordedEntryIterations rest
  | .finalize :: rest => recordedEntryIterations rest

/-- Helper: patch rows accumulate exactly with the record transactions. -/
lemma patches_length_foldl (ops : List StoreOp) :
    ∀ st : RunStore,
      (ops.foldl StoreOp.apply st).patches.length =
        st.patches.length + recordedPatchCount ops := by
  induction ops with
  | nil => intro st; simp [recordedPatchCount]
  | cons op rest ih =>
      intro st
      rw [List.foldl_cons, ih]
      cases op with
      | create =>
          cases hrun : st.run <;>
            simp [StoreOp.apply, RunStore.create, hrun, recordedPatchCount]
      | transition a b c d =>
          cases hrun : st.run <;>
            simp [StoreOp.apply, RunStore.transitionStatus, hrun,
              recordedPatchCount]
      | progress =>
          simp [StoreOp.apply, RunStore.updateProgress, recordedPatchCount]
      | finalize =>
          cases hrun : st.run <;>
            simp [StoreOp.apply, RunStore.finalizeScoring, hrun,
              recordedPatchCount]
      | record i ps e =>
          simp [StoreOp.apply, RunStore.recordIteration, recordedPatchCount]
          omega

/-- Helper: timeline rows accumulate exactly with the record
transactions, in order. -/
lemma timeline_iterations_foldl (ops : List StoreOp) :
    ∀ st : RunStore,
      (ops.foldl StoreOp.apply st).timelineRows.map TimelineRow.iteration =
        st.timelineRows.map TimelineRow.iteration ++
          recordedEntryIterations ops := by
  induction ops with
  | nil => intro st; simp [recordedEntryIterations]
  | cons op rest ih =>
      intro st
      rw [List.foldl_cons, ih]
      cases op with
      | create =>
          cases hrun : st.run <;>
            simp [StoreOp.apply, RunStore.create, hrun,
              recordedEntryIterations]
      | transition a b c d =>
          cases hrun : st.run <;>
            simp [StoreOp.apply, RunStore.transitionStatus, hrun,
              recordedEntryIterations]
      | progress =>
          simp [StoreOp.apply, RunStore.updateProgress,
            recordedEntryIterations]
      | finalize =>
          cases hrun : st.run <;>
            simp [StoreOp.apply, RunStore.finalizeScoring, hrun,
              recordedEntryIterations]
      | record i ps e =>
          simp [StoreOp.apply, RunStore.recordIteration,
            recordedEntryIterations]

/-- Store of a run with a single remediation iteration one of whose
patches failed to apply: one applied row and one unapplied row. -/
def c1MixedStore : RunStore :=
  runStoreOf
    [.create,
     .record 1
       [{ filePath := "repo/a.ts", bugType := .LINTING, lineNumber := 3
          commitMessage := "Removed trailing whitespace", status := "passed" },
        { filePath := "repo/a.ts", bugType := .LOGIC, lineNumber := 7
          commitMessage := "Pattern no longer matches at line 7"
          status := "failed" }]
       { iteration := 1, result := "failed", retryCount := 1, retryLimit := 5 }]

/-- C1 counterexample: getFullResult's fixes table contains every patch
row of the run — applied and unapplied alike — so its length differs
from the count of applied (status passed) rows as soon as one patch
failed to apply. -/
theorem c1_fixes_table_counterexample :
    ¬ (c1MixedStore.fixesTable.length =
        (c1MixedStore.patches.filter
          (fun p => p.status = "passed")).length) := by
  decide

/-- C1 amended: getFullResult's fixes table length equals the count of
all patch rows recorded for the run (applied and unapplied), and its
timeline is sorted ascending by iteration whenever the recordIteration
calls carried increasing iteration numbers, as the orchestrator's loop
issues them. -/
theorem c1_full_result_amended (ops : List StoreOp)
    (hinc : List.Sorted (· < ·) (recordedEntryIterations ops)) :
    (runStoreOf ops).fixesTable.length = recordedPatchCount ops ∧
    List.Sorted (· ≤ ·)
      ((runStoreOf ops).timelineView.map TimelineEntry.iteration) := by
  constructor
  · rw [RunStore.fixesTable, List.length_map, runStoreOf,
      patches_length_foldl]
    simp [RunStore.empty]
  · have hmap : (runStoreOf ops).timelineView.map TimelineEntry.iteration =
        (runStoreOf ops).timelineRows.map TimelineRow.iteration := by
      rw [RunStore.timelineView, List.map_map]
      rfl
    rw [hmap, runStoreOf, timeline_iterations_foldl]
    simp only [RunStore.empty, List.map_nil, List.nil_append]
    exact hinc.le_of_lt

/-- Witness for C1's amended statement at the two-row store. -/
theorem c1_full_result_witness :
    List.Sorted (· < ·) (recordedEntryIterations
      [.create,
       .record 1
         [{ filePath := "repo/a.ts", bugType := .LINTING, lineNumber := 3
            commitMessage := "Removed trailing whitespace", status := "passed" },
          { filePath := "repo/a.ts", bugType := .LOGIC, lineNumber := 7
            commitMessage := "Pattern no longer matches at line 7"
            status := "failed" }]
         { iteration := 1, result := "failed", retryCount := 1, retryLimit := 5 }]) ∧
    c1MixedStore.fixesTable.length = 2 := by
  refine ⟨by decide, ?_⟩
  have h := (c1_full_result_amended
    [.create,
     .record 1
       [{ filePath := "repo/a.ts", bugType := .LINTING, lineNumber := 3
          commitMessage := "Removed trailing whitespace", status := "passed" },
        { filePath := "repo/a.ts", bugType := .LOGIC, lineNumber := 7
          commitMessage := "Pattern no longer matches at line 7"
          status := "failed" }]
       { iteration := 1, result := "failed", retryCount := 1, retryLimit := 5 }]
    (by decide)).1
  exact h


/- ══════════ Patch engine (patchEngine.ts) — line-level model ══════════ -/

/-- Whitespace class of the JS regex \s (and of String.prototype.trim),
restricted to the characters that can occur inside a single line after
splitting on line endings: space, tab, carriage return, vertical tab,
form feed and no-break space. -/
def isWsChar (c : Char) : Bool :=
  c = ' ' || c = '\t' || c = '\r' || c = '\x0b' || c = '\x0c' || c = '\xa0'

/-- Word class of the JS regex \w, used by the \b boundary. -/
def isWordChar (c : Char) : Bool :=
  ('a' ≤ c && c ≤ 'z') || ('A' ≤ c && c ≤ 'Z') ||
    ('0' ≤ c && c ≤ '9') || c = '_'

/-- Model of String.prototype.trimEnd on a line. -/
def trimEnd (l : List Char) : List Char :=
  (l.reverse.dropWhile isWsChar).reverse

/-- Test of the scanner regex \s+$ — some trailing whitespace exists,
i.e. the last character is whitespace. -/
def hasTrailingWs (l : List Char) : Bool :=
  match l.getLast? with
  | some c => isWsChar c
  | none => false

/-- Model of line.replace of every tab by two spaces. -/
def replaceTabs (l : List Char) : List Char :=
  l.flatMap (fun c => if c = '\t' then [' ', ' '] else [c])

/-- Test of the regex ^\t — the line starts with a tab. -/
def startsWithTab (l : List Char) : Bool :=
  l.head? = some '\t'

/-- Word-boundary test after a match: the next character, if any, is not
a word character. -/
def wordBoundaryAfter (l : List Char) : Bool :=
  match l.head? with
  | some c => !isWordChar c
  | none => true

/-- Match helper for :\s*any\b — given the characters after the colon,
consume optional whitespace, the literal any and a word boundary,
returning the remainder. -/
def splitAnyAfterWs (l : List Char) : Option (List Char) :=
  match l.dropWhile isWsChar with
  | c1 :: c2 :: c3 :: rem =>
      if c1 = 'a' ∧ c2 = 'n' ∧ c3 = 'y' ∧ wordBoundaryAfter rem then some rem
      else none
  | _ => none

/-- Helper: a successful any-match strictly shrinks the list. -/
lemma splitAnyAfterWs_length {l rem : List Char}
    (h : splitAnyAfterWs l = some rem) : rem.length < l.length := by
  have hd : (l.dropWhile isWsChar).length ≤ l.length :=
    (List.dropWhile_sublist isWsChar).length_le
  rw [splitAnyAfterWs] at h
  rcases hdw : l.dropWhile isWsChar with _ | ⟨c1, _ | ⟨c2, _ | ⟨c3, rem0⟩⟩⟩ <;>
    rw [hdw] at h hd <;> simp at h
  obtain ⟨-, hrem⟩ := h
  rw [← hrem]
  simp only [List.length_cons] at hd
  omega

/-- Test of the regex :\s*any\b somewhere in the line. -/
def testColonAny : List Char → Bool
  | [] => false
  | c :: rest =>
      (c = ':' && (splitAnyAfterWs rest).isSome) || testColonAny rest

/-- Global replacement of :\s*any\b by the literal ": unknown", scanning
left to right and resuming after each match as the JS g-flag does. -/
def replaceColonAny : List Char → List Char
  | [] => []
  | c :: rest =>
      if c = ':' then
        match hsplit : splitAnyAfterWs rest with
        | some rem => ':' :: ' ' :: ("unknown".toList ++ replaceColonAny rem)
        | none => c :: replaceColonAny rest
      else c :: replaceColonAny rest
termination_by l => l.length
decreasing_by
  all_goals simp only [List.length_cons]
  · exact Nat.lt_succ_of_lt (splitAnyAfterWs_length hsplit)
  · exact Nat.lt_succ_self _
  · exact Nat.lt_succ_self _

/-- Match helper for the \s+any\b part of \bas\s+any\b: one mandatory
whitespace character, more optional whitespace, the literal any and a
word boundary. -/
def asAnyTail (l : List Char) : Option (List Char) :=
  match l with
  | [] => none
  | c :: rest => if isWsChar c then splitAnyAfterWs rest else none

/-- Helper: a successful as-any tail strictly shrinks the list. -/
lemma asAnyTail_length {l rem : List Char}
    (h : asAnyTail l = some rem) : rem.length < l.length := by
  rcases l with _ | ⟨c, rest⟩
  · exact absurd h (by simp [asAnyTail])
  · rw [asAnyTail] at h
    by_cases hc : isWsChar c = true
    · rw [if_pos hc] at h
      exact Nat.lt_succ_of_lt (splitAnyAfterWs_length h)
    · rw [if_neg hc] at h
      exact absurd h (by simp)

/-- Match helper for the s\s+any\b continuation of \bas\s+any\b after
the initial a: the literal s, one-or-more whitespace, any, boundary. -/
def asAnyMatch (l : List Char) : Option (List Char) :=
  match l with
  | c :: rest2 => if c = 's' then asAnyTail rest2 else none
  | [] => none

/-- Helper: a successful as-any continuation strictly shrinks the list. -/
lemma asAnyMatch_length {l rem : List Char}
    (h : asAnyMatch l = some rem) : rem.length < l.length := by
  rcases l with _ | ⟨c, rest2⟩
  · exact absurd h (by simp [asAnyMatch])
  · rw [asAnyMatch] at h
    by_cases hc : c = 's'
    · rw [if_pos hc] at h
      exact Nat.lt_succ_of_lt (asAnyTail_length h)
    · rw [if_neg hc] at h
      exact absurd h (by simp)

/-- Test of \bas\s+any\b: the Bool argument tracks whether the
previously scanned character was a word character (the \b lookbehind). -/
def testAsAny : Bool → List Char → Bool
  | _, [] => false
  | prevIsWord, c :: rest =>
      (c = 'a' && !prevIsWord && (asAnyMatch rest).isSome) ||
        testAsAny (isWordChar c) rest

/-- Global replacement of \bas\s+any\b by "as unknown"; after a match
the scan resumes past it with the word character y as lookbehind. -/
def replaceAsAny : Bool → List Char → List Char
  | _, [] => []
  | prevIsWord, c :: rest =>
      if c = 'a' && !prevIsWord then
        match hm : asAnyMatch rest with
        | some rem => "as unknown".toList ++ replaceAsAny true rem
        | none => c :: replaceAsAny (isWordChar c) rest
      else c :: replaceAsAny (isWordChar c) rest
termination_by _ l => l.length
decreasing_by
  all_goals simp only [List.length_cons]
  · exact Nat.lt_succ_of_lt (asAnyMatch_length hm)
  · exact Nat.lt_succ_self _
  · exact Nat.lt_succ_self _

/-- Check that a suffix starts with mandatory whitespace, then the
literal import, then mandatory whitespace, then a star — the
\s+import\s+\* portion of the from-import wildcard regex. -/
def wsThenImportStar (l : List Char) : Bool :=
  match l with
  | c :: _ =>
      isWsChar c &&
        (match l.dropWhile isWsChar with
         | 'i' :: 'm' :: 'p' :: 'o' :: 'r' :: 't' :: r2 =>
             (match r2 with
              | d :: _ =>
                  isWsChar d && ((r2.dropWhile isWsChar).head? = some '*')
              | [] => false)
         | _ => false)
  | [] => false

/-- Does some suffix of the list satisfy the predicate? -/
def anySuffixHas (p : List Char → Bool) : List Char → Bool
  | [] => p []
  | c :: rest => p (c :: rest) || anySuffixHas p rest

/-- Test of ^\s*from\s+.+\s+import\s+\* — optional leading whitespace,
from, at least one whitespace character, at least one arbitrary
character, then whitespace, import, whitespace and a star. -/
def testFromImportStar (l : List Char) : Bool :=
  match l.dropWhile isWsChar with
  | 'f' :: 'r' :: 'o' :: 'm' :: r =>
      match r with
      | c :: rest =>
          isWsChar c &&
            (match rest with
             | _ :: restTail => anySuffixHas wsThenImportStar restTail
             | [] => false)
      | [] => false
  | _ => false

/-- Test of ^\s*import\s+\*\s+as\s+ — optional leading whitespace,
import, whitespace, star, whitespace, as, whitespace. -/
def testImportStarAs (l : List Char) : Bool :=
  match l.dropWhile isWsChar with
  | 'i' :: 'm' :: 'p' :: 'o' :: 'r' :: 't' :: r =>
      match r with
      | c :: _ =>
          isWsChar c &&
            (match r.dropWhile isWsChar with
             | '*' :: r2 =>
                 (match r2 with
                  | d :: _ =>
                      isWsChar d &&
                        (match r2.dropWhile isWsChar with
                         | 'a' :: 's' :: r3 =>
                             (match r3 with
                              | e :: _ => isWsChar e
                              | [] => false)
                         | _ => false)
                  | [] => false)
             | _ => false)
      | [] => false
  | _ => false

/-- Containment of a literal pattern as a contiguous substring. -/
def containsSeq (pat : List Char) (l : List Char) : Bool :=
  anySuffixHas (fun s => pat.isPrefixOf s) l

/-- Literal pattern of the regex console\.log\(. -/
def consoleLogPat : List Char := "console.log(".toList

/-- Test of the regex TODO|FIXME. -/
def hasTodoOrFixme (l : List Char) : Bool :=
  containsSeq "TODO".toList l || containsSeq "FIXME".toList l

/-- Test for a // comment followed by optional whitespace and TODO or
FIXME starting at the head of the list. -/
def slashTodoAt (l : List Char) : Bool :=
  match l with
  | '/' :: '/' :: r =>
      ("TODO".toList.isPrefixOf (r.dropWhile isWsChar)) ||
        ("FIXME".toList.isPrefixOf (r.dropWhile isWsChar))
  | _ => false

/-- Index of the first // TODO/FIXME comment occurrence, the position at
which the regex \/\/\s*(TODO|FIXME) first matches. -/
def findSlashTodo : List Char → Option Nat
  | [] => none
  | c :: rest =>
      if slashTodoAt (c :: rest) then some 0
      else (findSlashTodo rest).map (· + 1)

/-- Model of String.prototype.trim. -/
def jsTrim (l : List Char) : List Char :=
  trimEnd (l.dropWhile isWsChar)

/-- Line-level fix determined by computeLineFix: the replacement text, or
none to delete the whole line. -/
structure LineFix where
  replacement : Option (List Char)
  description : String
deriving DecidableEq, Repr

/-- Model of computeLineFix: the category-specific minimal line edit, or
none when the category's pattern no longer matches the line. -/
def computeLineFix (line : List Char) (bugType : BugType) : Option LineFix :=
  match bugType with
  | .LINTING =>
      let trimmed := trimEnd line
      if trimmed ≠ line then
        some { replacement := some trimmed
               description := "Removed trailing whitespace" }
      else none
  | .INDENTATION =>
      if startsWithTab line then
        some { replacement := some (replaceTabs line)
               description := "Replaced tabs with spaces" }
      else none
  | .TYPE_ERROR =>
      let t1 := testColonAny line
      let f1 := if t1 then replaceColonAny line else line
      let t2 := testAsAny false f1
      let f2 := if t2 then replaceAsAny false f1 else f1
      if t1 || t2 then
        some { replacement := some f2
               description := "Replaced `any` with `unknown`" }
      else none
  | .IMPORT =>
      if testFromImportStar line || testImportStarAs line then
        some { replacement := none
               description := "Removed wildcard import statement" }
      else none
  | .LOGIC =>
      if containsSeq consoleLogPat line then
        some { replacement := none
               description := "Removed console.log debug statement" }
      else
        match findSlashTodo line with
        | some j =>
            let cleaned := trimEnd (line.take j)
            if jsTrim cleaned = [] then
              some { replacement := none
                     description := "Removed TODO/FIXME comment line" }
            else
              some { replacement := some cleaned
                     description := "Removed inline TODO/FIXME comment" }
        | none =>
            if hasTodoOrFixme line then
              some { replacement := none
                     description := "Removed TODO/FIXME line" }
            else none
  | .SYNTAX => none

/-- Unapplied-patch message for an out-of-range line number. -/
def outOfRangeMsg (lineNumber fileLines : Nat) : String :=
  "Line " ++ toString lineNumber ++ " out of range (file has " ++
    toString fileLines ++ " lines)"

/-- Unapplied-patch message for a stale detection. -/
def staleMsg (lineNumber : Nat) : String :=
  "Pattern no longer matches at line " ++ toString lineNumber

/-- One step of patchSingleFile's loop: bounds check against the current
buffer, re-check of the category pattern on the current line content,
then either a splice (line deletion), an in-place replacement, or an
unapplied record — never an exception. -/
def patchStep (buf : List (List Char)) (issue : DetectedIssue) :
    List (List Char) × PatchResult :=
  if issue.lineNumber = 0 ∨ buf.length < issue.lineNumber then
    (buf,
     { filePath := issue.filePath, bugType := issue.bugType
       lineNumber := issue.lineNumber, applied := false
       description := outOfRangeMsg issue.lineNumber buf.length })
  else
    let idx := issue.lineNumber - 1
    match computeLineFix (buf.getD idx []) issue.bugType with
    | none =>
        (buf,
         { filePath := issue.filePath, bugType := issue.bugType
           lineNumber := issue.lineNumber, applied := false
           description := staleMsg issue.lineNumber })
    | some fix =>
        match fix.replacement with
        | none =>
            (buf.eraseIdx idx,
             { filePath := issue.filePath, bugType := issue.bugType
               lineNumber := issue.lineNumber, applied := true
               description := fix.description })
        | some rep =>
            (buf.set idx rep,
             { filePath := issue.filePath, bugType := issue.bugType
               lineNumber := issue.lineNumber, applied := true
               description := fix.description })

/-- The for-loop of patchSingleFile over already-sorted issues, threading
the line buffer and accumulating one result per issue. -/
def patchLoop (buf : List (List Char)) :
    List DetectedIssue → List (List Char) × List PatchResult
  | [] => (buf, [])
  | issue :: rest =>
      let step := patchStep buf issue
      let tailOut := patchLoop step.1 rest
      (tailOut.1, step.2 :: tailOut.2)

/-- Descending sort by line number, as the comparator
(a, b) => b.lineNumber - a.lineNumber produces. -/
def sortIssuesDesc (issues : List DetectedIssue) : List DetectedIssue :=
  issues.insertionSort (fun a b => b.lineNumber ≤ a.lineNumber)

/-- Model of patchSingleFile on a file already split into lines: sort
descending, then run the loop; returns the final buffer and results. -/
def patchSingleFile (origLines : List (List Char))
    (issues : List DetectedIssue) :
    List (List Char) × List PatchResult :=
  patchLoop origLines (sortIssuesDesc issues)

/-- Fold step of the Map-based grouping in applyAllPatches: append to the
existing group of the issue's file or open a new group at the end. -/
def upsertGroup (acc : List (String × List DetectedIssue))
    (issue : DetectedIssue) : List (String × List DetectedIssue) :=
  match acc with
  | [] => [(issue.filePath, [issue])]
  | (k, g) :: rest =>
      if k = issue.filePath then (k, g ++ [issue]) :: rest
      else (k, g) :: upsertGroup rest issue

/-- Grouping of issues by file path in first-occurrence order, as the JS
Map insertion order produces. -/
def groupByFile (issues : List DetectedIssue) :
    List (String × List DetectedIssue) :=
  issues.foldl upsertGroup []

/-- Model of applyAllPatches over an abstract read-only snapshot of the
workspace (file path to lines; none = unreadable).  Grouping guarantees
each file is read and written once, so the snapshot is stable within a
call. -/
def applyAllPatches (fs : String → Option (List (List Char)))
    (issues : List DetectedIssue) : List PatchResult :=
  (groupByFile issues).flatMap (fun p =>
    match fs p.1 with
    | none =>
        p.2.map (fun issue =>
          { filePath := issue.filePath, bugType := issue.bugType
            lineNumber := issue.lineNumber, applied := false
            description := "Cannot read file" })
    | some lines => (patchSingleFile lines p.2).2)

/- ══════════ Issue scanner (dockerSandbox.ts detectIssuesInFile) ══════════ -/

/-- Per-category seen flags of the scanner's per-file loop. -/
structure ScanFlags where
  seenLinting : Bool
  seenImport : Bool
  seenType : Bool
  seenIndent : Bool
  seenLogic : Bool
deriving DecidableEq, Repr

/-- Initial flags. -/
def ScanFlags.init : ScanFlags :=
  { seenLinting := false, seenImport := false, seenType := false
    seenIndent := false, seenLogic := false }

/-- Scanner check of one line, in the source's priority order with its
continue semantics: at most one category per line, each category at most
once per file. -/
def detectLine (flags : ScanFlags) (l : List Char) :
    Option (BugType × String) × ScanFlags :=
  if !flags.seenLinting && hasTrailingWs l then
    (some (.LINTING, "remove trailing whitespace"),
     { flags with seenLinting := true })
  else if !flags.seenImport && (testFromImportStar l || testImportStarAs l) then
    (some (.IMPORT, "remove the import statement"),
     { flags with seenImport := true })
  else if !flags.seenType && (testColonAny l || testAsAny false l) then
    (some (.TYPE_ERROR, "replace any with a concrete type"),
     { flags with seenType := true })
  else if !flags.seenIndent && startsWithTab l then
    (some (.INDENTATION, "replace tab indentation with spaces"),
     { flags with seenIndent := true })
  else if !flags.seenLogic && (hasTodoOrFixme l || containsSeq consoleLogPat l) then
    (some (.LOGIC, "remove debug statement and finalize implementation"),
     { flags with seenLogic := true })
  else (none, flags)

/-- Loop of detectIssuesInFile: lineNumber counts from one, slots is the
remaining room under the 3-issues-per-file cap (the loop breaks as soon
as the cap is reached). -/
def scanGo (filePath : String) (flags : ScanFlags) (lineNumber : Nat)
    (slots : Nat) : List (List Char) → List DetectedIssue
  | [] => []
  | l :: rest =>
      match detectLine flags l with
      | (some hit, flags1) =>
          let issue : DetectedIssue :=
            { filePath := filePath, bugType := hit.1
              lineNumber := lineNumber, fixSuggestion := hit.2 }
          if slots ≤ 1 then [issue]
          else issue :: scanGo filePath flags1 (lineNumber + 1) (slots - 1) rest
      | (none, flags1) =>
          scanGo filePath flags1 (lineNumber + 1) slots rest

/-- Model of detectIssuesInFile on a file already split by \r?\n (the
oversized-file guard returns [] upstream and is out of scope here). -/
def detectIssuesInLines (filePath : String) (lines : List (List Char)) :
    List DetectedIssue :=
  scanGo filePath ScanFlags.init 1 3 lines

/-- Composition scan-then-patch on one file, as one remediation cycle
performs it: detect issues, then apply their category fixes. -/
def scanPatchPass (lines : List (List Char)) : List (List Char) :=
  (patchSingleFile lines (detectIssuesInLines "repo/file" lines)).1

/- ══════════════════════════ Claim C5 ══════════════════════════ -/

/-- Helper: setting at or past the taken prefix leaves it unchanged. -/
lemma take_set_of_le {α : Type} (l : List α) (n m : Nat) (a : α)
    (h : m ≤ n) : (l.set n a).take m = l.take m := by
  induction l generalizing n m with
  | nil => simp
  | cons x xs ih =>
      cases n with
      | zero =>
          have hm : m = 0 := Nat.le_zero.mp h
          simp [hm]
      | succ n' =>
          cases m with
          | zero => simp
          | succ m' =>
              simp only [List.set_cons_succ, List.take_succ_cons,
                List.cons.injEq, true_and]
              exact ih n' m' (Nat.succ_le_succ_iff.mp h)

/-- Helper: deleting at or past the taken prefix leaves it unchanged. -/
lemma take_eraseIdx_of_le {α : Type} (l : List α) (n m : Nat)
    (h : m ≤ n) : (l.eraseIdx n).take m = l.take m := by
  induction l generalizing n m with
  | nil => simp
  | cons x xs ih =>
      cases n with
      | zero =>
          have hm : m = 0 := Nat.le_zero.mp h
          simp [hm]
      | succ n' =>
          cases m with
          | zero => simp
          | succ m' =>
              simp only [List.eraseIdx_cons_succ, List.take_succ_cons,
                List.cons.injEq, true_and]
              exact ih n' m' (Nat.succ_le_succ_iff.mp h)

/-- Helper: equal taken prefixes force equal clamped lengths. -/
lemma length_min_of_take_eq {α : Type} {buf orig : List α} {n : Nat}
    (h : buf.take n = orig.take n) :
    min n buf.length = min n orig.length := by
  have := congrArg List.length h
  simpa [List.length_take] using this

/-- Helper: equal taken prefixes agree on indexed reads inside them. -/
lemma getD_eq_of_take_eq {buf orig : List (List Char)} {n idx : Nat}
    (h : buf.take n = orig.take n) (hidx : idx < n) :
    buf.getD idx [] = orig.getD idx [] := by
  have h1 : buf[idx]? = orig[idx]? := by
    rw [← List.getElem?_take_of_lt (l := buf) hidx,
      ← List.getElem?_take_of_lt (l := orig) hidx, h]
  rw [List.getD_eq_getElem?_getD, List.getD_eq_getElem?_getD, h1]

/-- Helper: the descending sort yields strictly decreasing line numbers
when they are pairwise distinct. -/
lemma sortIssuesDesc_strictDesc (issues : List DetectedIssue)
    (hdist : issues.Pairwise (fun a b => a.lineNumber ≠ b.lineNumber)) :
    (sortIssuesDesc issues).Pairwise
      (fun a b => b.lineNumber < a.lineNumber) := by
  have hperm : List.Perm (sortIssuesDesc issues) issues :=
    List.perm_insertionSort _ issues
  have hdist' : (sortIssuesDesc issues).Pairwise
      (fun a b => a.lineNumber ≠ b.lineNumber) :=
    (List.Perm.pairwise_iff (fun {_ _} h => Ne.symm h) hperm).mpr hdist
  have hsorted : (sortIssuesDesc issues).Pairwise
      (fun a b => b.lineNumber ≤ a.lineNumber) := by
    haveI : IsTotal DetectedIssue (fun a b => b.lineNumber ≤ a.lineNumber) :=
      ⟨fun a b => Nat.le_total b.lineNumber a.lineNumber⟩
    haveI : IsTrans DetectedIssue (fun a b => b.lineNumber ≤ a.lineNumber) :=
      ⟨fun _ _ _ hab hbc => le_trans hbc hab⟩
    exact List.sorted_insertionSort _ issues
  exact (hsorted.and hdist').imp (fun h => lt_of_le_of_ne h.1 (Ne.symm h.2))

/-- Per-issue outcome the spec prescribes at the original file content:
the identifying fields are echoed, an in-range issue whose category
pattern still matches is applied with the fix's description, a stale one
is unapplied with the stale reason, an out-of-range one is unapplied. -/
def patchResultSpec (orig : List (List Char)) (issue : DetectedIssue)
    (r : PatchResult) : Prop :=
  r.filePath = issue.filePath ∧ r.bugType = issue.bugType ∧
  r.lineNumber = issue.lineNumber ∧
  (if 1 ≤ issue.lineNumber ∧ issue.lineNumber ≤ orig.length then
    match computeLineFix (orig.getD (issue.lineNumber - 1) []) issue.bugType with
    | some fix => r.applied = true ∧ r.description = fix.description
    | none => r.applied = false ∧ r.description = staleMsg issue.lineNumber
   else r.applied = false)

/-- Helper: a patch step never disturbs the buffer before the issue's
line. -/
lemma patchStep_take (buf : List (List Char)) (issue : DetectedIssue)
    (m : Nat) (hm : m < issue.lineNumber) :
    ((patchStep buf issue).1).take m = buf.take m := by
  rw [patchStep]
  by_cases hoor : issue.lineNumber = 0 ∨ buf.length < issue.lineNumber
  · rw [if_pos hoor]
  · rw [if_neg hoor]
    rcases hfix : computeLineFix (buf.getD (issue.lineNumber - 1) [])
        issue.bugType with _ | fix
    · simp only [hfix]
    · rcases hrep : fix.replacement with _ | rep
      · simp only [hfix, hrep]
        exact take_eraseIdx_of_le buf _ m (by omega)
      · simp only [hfix, hrep]
        exact take_set_of_le buf _ m rep (by omega)

/-- Helper: a patch step's result record satisfies the per-issue spec at
the original content, provided the buffer still agrees with the original
up to the issue's line. -/
lemma patchStep_spec (orig buf : List (List Char)) (issue : DetectedIssue)
    (htake : buf.take issue.lineNumber = orig.take issue.lineNumber) :
    patchResultSpec orig issue (patchStep buf issue).2 := by
  have hmin := length_min_of_take_eq htake
  by_cases hoor : issue.lineNumber = 0 ∨ buf.length < issue.lineNumber
  · rw [patchStep, if_pos hoor]
    refine ⟨rfl, rfl, rfl, ?_⟩
    rw [if_neg (by omega)]
  · have hrng : 1 ≤ issue.lineNumber ∧ issue.lineNumber ≤ orig.length := by
      omega
    have hline : buf.getD (issue.lineNumber - 1) [] =
        orig.getD (issue.lineNumber - 1) [] :=
      getD_eq_of_take_eq htake (by omega)
    rcases hfix : computeLineFix (orig.getD (issue.lineNumber - 1) [])
        issue.bugType with _ | fix
    · have hres : (patchStep buf issue).2 =
          { filePath := issue.filePath, bugType := issue.bugType
            lineNumber := issue.lineNumber, applied := false
            description := staleMsg issue.lineNumber } := by
        rw [patchStep, if_neg hoor]
        simp only [hline, hfix]
      rw [hres]
      refine ⟨rfl, rfl, rfl, ?_⟩
      rw [if_pos hrng, hfix]
      exact ⟨rfl, rfl⟩
    · rcases hrep : fix.replacement with _ | rep
      · have hres : (patchStep buf issue).2 =
            { filePath := issue.filePath, bugType := issue.bugType
              lineNumber := issue.lineNumber, applied := true
              description := fix.description } := by
          rw [patchStep, if_neg hoor]
          simp only [hline, hfix, hrep]
        rw [hres]
        refine ⟨rfl, rfl, rfl, ?_⟩
        rw [if_pos hrng, hfix]
        exact ⟨rfl, rfl⟩
      · have hres : (patchStep buf issue).2 =
            { filePath := issue.filePath, bugType := issue.bugType
              lineNumber := issue.lineNumber, applied := true
              description := fix.description } := by
          rw [patchStep, if_neg hoor]
          simp only [hline, hfix, hrep]
        rw [hres]
        refine ⟨rfl, rfl, rfl, ?_⟩
        rw [if_pos hrng, hfix]
        exact ⟨rfl, rfl⟩

/-- Helper: over strictly descending issues whose lines still agree with
the original, the loop produces one spec-conforming result per issue. -/
lemma patchLoop_spec (orig : List (List Char)) :
    ∀ (l : List DetectedIssue) (buf : List (List Char)),
      l.Pairwise (fun a b => b.lineNumber < a.lineNumber) →
      (∀ i ∈ l, buf.take i.lineNumber = orig.take i.lineNumber) →
      List.Forall₂ (patchResultSpec orig) l (patchLoop buf l).2 := by
  intro l
  induction l with
  | nil => intro buf _ _; exact List.Forall₂.nil
  | cons issue rest ih =>
      intro buf hpw hinv
      rw [List.pairwise_cons] at hpw
      obtain ⟨hlt, hpw'⟩ := hpw
      have htake := hinv issue (List.mem_cons_self _ _)
      rw [patchLoop]
      refine List.Forall₂.cons (patchStep_spec orig buf issue htake) ?_
      apply ih _ hpw'
      intro b hb
      rw [patchStep_take buf issue b.lineNumber (hlt b hb)]
      exact hinv b (List.mem_cons_of_mem _ hb)

/-- Helper: upsert keeps every group member keyed by its own file path. -/
lemma upsertGroup_keys (issue : DetectedIssue) :
    ∀ acc : List (String × List DetectedIssue),
      (∀ p ∈ acc, ∀ i ∈ p.2, i.filePath = p.1) →
      ∀ p ∈ upsertGroup acc issue, ∀ i ∈ p.2, i.filePath = p.1 := by
  intro acc
  induction acc with
  | nil =>
      intro _ p hp i hi
      simp only [upsertGroup, List.mem_singleton] at hp
      subst hp
      simp only [List.mem_singleton] at hi
      subst hi
      rfl
  | cons q rest ih =>
      obtain ⟨k, g⟩ := q
      intro h p hp i hi
      rw [upsertGroup] at hp
      by_cases hk : k = issue.filePath
      · rw [if_pos hk] at hp
        rcases List.mem_cons.mp hp with hp | hp
        · subst hp
          rcases List.mem_append.mp hi with hi | hi
          · exact h (k, g) (List.mem_cons_self _ _) i hi
          · simp only [List.mem_singleton] at hi
            subst hi
            exact hk.symm
        · exact h p (List.mem_cons_of_mem _ hp) i hi
      · rw [if_neg hk] at hp
        rcases List.mem_cons.mp hp with hp | hp
        · subst hp
          exact h (k, g) (List.mem_cons_self _ _) i hi
        · exact ih (fun q hq => h q (List.mem_cons_of_mem _ hq)) p hp i hi

/-- Helper: upsert extends the flattened grouping by the new issue. -/
lemma upsertGroup_join (issue : DetectedIssue) :
    ∀ acc : List (String × List DetectedIssue),
      List.Perm (((upsertGroup acc issue).map Prod.snd).flatten)
        (((acc.map Prod.snd).flatten) ++ [issue]) := by
  intro acc
  induction acc with
  | nil => simp [upsertGroup]
  | cons q rest ih =>
      obtain ⟨k, g⟩ := q
      rw [upsertGroup]
      by_cases hk : k = issue.filePath
      · rw [if_pos hk]
        simp only [List.map_cons, List.flatten_cons, List.append_assoc]
        exact List.Perm.append_left g (List.perm_append_comm)
      · rw [if_neg hk]
        simp only [List.map_cons, List.flatten_cons, List.append_assoc]
        exact List.Perm.append_left g ih

/-- Helper: the grouping flattens back to a permutation of the issues. -/
lemma groupByFile_join_perm (issues : List DetectedIssue) :
    List.Perm (((groupByFile issues).map Prod.snd).flatten) issues := by
  suffices h : ∀ acc : List (String × List DetectedIssue),
      List.Perm (((issues.foldl upsertGroup acc).map Prod.snd).flatten)
        (((acc.map Prod.snd).flatten) ++ issues) by
    simpa using h []
  induction issues with
  | nil => intro acc; simp
  | cons i rest ih =>
      intro acc
      rw [List.foldl_cons]
      refine (ih (upsertGroup acc i)).trans ?_
      refine (List.Perm.append_right rest (upsertGroup_join i acc)).trans ?_
      simp [List.append_assoc]

/-- Helper: every group of the grouping is keyed correctly. -/
lemma groupByFile_keys (issues : List DetectedIssue) :
    ∀ p ∈ groupByFile issues, ∀ i ∈ p.2, i.filePath = p.1 := by
  suffices h : ∀ acc : List (String × List DetectedIssue),
      (∀ p ∈ acc, ∀ i ∈ p.2, i.filePath = p.1) →
      ∀ p ∈ issues.foldl upsertGroup acc, ∀ i ∈ p.2, i.filePath = p.1 by
    exact h [] (by simp)
  induction issues with
  | nil => intro acc h; exact h
  | cons i rest ih =>
      intro acc h
      rw [List.foldl_cons]
      exact ih (upsertGroup acc i) (upsertGroup_keys i acc h)

/-- C5: the patch engine groups issues by file (the groups flatten back
to the issue list and every member is keyed by its own path) and within
a file processes them in descending line order, so that, when line
numbers are pairwise distinct, each issue is judged against the original
content: one result per issue, applied with the category transformation
exactly when the issue is in range and its pattern still matches, and
otherwise returned unapplied with a reason — never an exception. -/
theorem c5_patch_engine_behavior (orig : List (List Char))
    (issues : List DetectedIssue)
    (hdist : issues.Pairwise (fun a b => a.lineNumber ≠ b.lineNumber)) :
    List.Forall₂ (patchResultSpec orig) (sortIssuesDesc issues)
      (patchSingleFile orig issues).2 ∧
    (patchSingleFile orig issues).2.length = issues.length ∧
    (∀ p ∈ groupByFile issues, ∀ i ∈ p.2, i.filePath = p.1) ∧
    List.Perm (((groupByFile issues).map Prod.snd).flatten) issues := by
  have hspec : List.Forall₂ (patchResultSpec orig) (sortIssuesDesc issues)
      (patchSingleFile orig issues).2 := by
    rw [patchSingleFile]
    exact patchLoop_spec orig (sortIssuesDesc issues) orig
      (sortIssuesDesc_strictDesc issues hdist) (fun i _ => rfl)
  refine ⟨hspec, ?_, groupByFile_keys issues, groupByFile_join_perm issues⟩
  have h1 := hspec.length_eq
  rw [← h1, sortIssuesDesc, List.length_insertionSort]

/-- Witness for C5 at a concrete two-issue file. -/
theorem c5_patch_engine_witness :
    ([({ filePath := "repo/a.ts", bugType := .LINTING, lineNumber := 1
         fixSuggestion := "" } : DetectedIssue),
      { filePath := "repo/a.ts", bugType := .INDENTATION, lineNumber := 2
        fixSuggestion := "" }].Pairwise
      (fun a b => a.lineNumber ≠ b.lineNumber)) ∧
    (patchSingleFile ["a ".toList, "\tb".toList]
      [{ filePath := "repo/a.ts", bugType := .LINTING, lineNumber := 1
         fixSuggestion := "" },
       { filePath := "repo/a.ts", bugType := .INDENTATION, lineNumber := 2
         fixSuggestion := "" }]).2.length = 2 :=
  ⟨by decide,
    (c5_patch_engine_behavior ["a ".toList, "\tb".toList]
      [{ filePath := "repo/a.ts", bugType := .LINTING, lineNumber := 1
         fixSuggestion := "" },
       { filePath := "repo/a.ts", bugType := .INDENTATION, lineNumber := 2
         fixSuggestion := "" }] (by decide)).2.1⟩

/- ══════════════════════════ Claim C6 ══════════════════════════ -/

/-- No non-deterministic category pattern (wildcard import, any-token,
debug/TODO) matches the line — the scanner would only ever assign it
LINTING or INDENTATION. -/
def otherFree (l : List Char) : Bool :=
  !(testFromImportStar l || testImportStarAs l) &&
  !(testColonAny l || testAsAny false l) &&
  !(hasTodoOrFixme l || containsSeq consoleLogPat l)

/-- The line and its whitespace-fixed forms stay free of the
non-deterministic category patterns. -/
def detSafe (l : List Char) : Bool :=
  otherFree l && otherFree (trimEnd l) && otherFree (replaceTabs l)

/-- Number of deterministic defects: lines with trailing whitespace plus
lines with tab indentation. -/
def detBits (lines : List (List Char)) : Nat :=
  lines.countP hasTrailingWs + lines.countP startsWithTab

/-- Scanner restricted to the deterministic categories: what the per-file
loop detects on a file whose lines are otherFree, as (category, line
number) pairs. -/
def detScan (seenL seenI : Bool) (n : Nat) :
    List (List Char) → List (BugType × Nat)
  | [] => []
  | l :: rest =>
      if !seenL && hasTrailingWs l then
        (.LINTING, n) :: detScan true seenI (n + 1) rest
      else if !seenI && startsWithTab l then
        (.INDENTATION, n) :: detScan seenL true (n + 1) rest
      else detScan seenL seenI (n + 1) rest

/-- Effect of one scan+patch pass on a deterministic-only file: the
detected trailing-whitespace line is trimmed, the detected tab-indented
line has its tabs expanded, all other lines stay. -/
def detPass (seenL seenI : Bool) : List (List Char) → List (List Char)
  | [] => []
  | l :: rest =>
      if !seenL && hasTrailingWs l then
        trimEnd l :: detPass true seenI rest
      else if !seenI && startsWithTab l then
        replaceTabs l :: detPass seenL true rest
      else l :: detPass seenL seenI rest

/-- Helper: trimming strictly shortens a line with trailing whitespace. -/
lemma trimEnd_length_lt {l : List Char} (h : hasTrailingWs l = true) :
    (trimEnd l).length < l.length := by
  rw [hasTrailingWs] at h
  rcases hrev : l.reverse with _ | ⟨c, t⟩
  · rw [← List.head?_reverse, hrev] at h
    simp at h
  · have hc : isWsChar c = true := by
      rw [← List.head?_reverse, hrev] at h
      simpa using h
    have hlen : l.length = t.length + 1 := by
      have := congrArg List.length hrev
      simpa using this
    rw [trimEnd, hrev, List.dropWhile_cons, if_pos hc, List.length_reverse]
    have := (List.dropWhile_sublist (l := t) isWsChar).length_le
    omega

/-- Helper: a trimmed line has no trailing whitespace left. -/
lemma hasTrailingWs_trimEnd (l : List Char) :
    hasTrailingWs (trimEnd l) = false := by
  rw [hasTrailingWs, trimEnd, ← List.head?_reverse, List.reverse_reverse]
  rcases hdw : l.reverse.dropWhile isWsChar with _ | ⟨c, t⟩
  · rfl
  · have : isWsChar c = false := by
      have := List.head?_dropWhile_not isWsChar l.reverse
      rw [hdw] at this
      simpa using this
    simpa using this

/-- Helper: the trailing-whitespace fix applies exactly on a line with
trailing whitespace. -/
lemma computeLineFix_LINTING {l : List Char} (h : hasTrailingWs l = true) :
    computeLineFix l .LINTING =
      some { replacement := some (trimEnd l)
             description := "Removed trailing whitespace" } := by
  rw [computeLineFix]
  have hne : trimEnd l ≠ l := by
    intro heq
    have := trimEnd_length_lt h
    rw [heq] at this
    omega
  simp [hne]

/-- Helper: the indentation fix applies exactly on a tab-indented line. -/
lemma computeLineFix_INDENTATION {l : List Char}
    (h : startsWithTab l = true) :
    computeLineFix l .INDENTATION =
      some { replacement := some (replaceTabs l)
             description := "Replaced tabs with spaces" } := by
  rw [computeLineFix, if_pos h]

/-- Helper: trimming is a prefix of the line. -/
lemma trimEnd_prefix (l : List Char) : trimEnd l <+: l := by
  have hsuf : l.reverse.dropWhile isWsChar <:+ l.reverse :=
    List.dropWhile_suffix isWsChar
  have h2 : (l.reverse.dropWhile isWsChar).reverse <+: l.reverse.reverse :=
    List.reverse_prefix.mpr hsuf
  rwa [List.reverse_reverse] at h2

/-- Helper: trimming never creates tab indentation. -/
lemma startsWithTab_trimEnd {l : List Char}
    (h : startsWithTab l = false) : startsWithTab (trimEnd l) = false := by
  obtain ⟨t, ht⟩ := trimEnd_prefix l
  rw [startsWithTab] at h ⊢
  rcases htr : trimEnd l with _ | ⟨c, r⟩
  · simp
  · rw [htr] at ht
    rw [← ht] at h
    simpa using h

/-- Helper: expanding tabs removes tab indentation. -/
lemma startsWithTab_replaceTabs (l : List Char) :
    startsWithTab (replaceTabs l) = false := by
  rcases l with _ | ⟨c, t⟩
  · rfl
  · rw [replaceTabs, List.flatMap_cons, startsWithTab]
    by_cases hc : c = '\t'
    · simp [hc]
    · simp [hc]

/-- Helper: a tab expansion is never empty on a nonempty line. -/
lemma replaceTabs_ne_nil {l : List Char} (h : l ≠ []) :
    replaceTabs l ≠ [] := by
  rcases l with _ | ⟨c, t⟩
  · exact absurd rfl h
  · rw [replaceTabs, List.flatMap_cons]
    by_cases hc : c = '\t' <;> simp [hc]

/-- Helper: expanding tabs preserves the trailing-whitespace bit. -/
lemma hasTrailingWs_replaceTabs (l : List Char) :
    hasTrailingWs (replaceTabs l) = hasTrailingWs l := by
  induction l with
  | nil => rfl
  | cons c t ih =>
      rcases t with _ | ⟨d, r⟩
      · by_cases hc : c = '\t'
        · subst hc
          rfl
        · simp [replaceTabs, hc, hasTrailingWs]
      · have h1 : replaceTabs (c :: d :: r) =
            (if c = '\t' then [' ', ' '] else [c]) ++ replaceTabs (d :: r) := by
          rw [replaceTabs, List.flatMap_cons]
          rfl
        rw [h1, hasTrailingWs, List.getLast?_append]
        have hne : replaceTabs (d :: r) ≠ [] :=
          replaceTabs_ne_nil (List.cons_ne_nil d r)
        rcases hlast : (replaceTabs (d :: r)).getLast? with _ | x
        · exact absurd (List.getLast?_eq_none_iff.mp hlast) hne
        · have hih := ih
          rw [hasTrailingWs, hlast] at hih
          have hcons : hasTrailingWs (c :: d :: r) = hasTrailingWs (d :: r) := by
            rw [hasTrailingWs, hasTrailingWs, List.getLast?_cons_cons]
          rw [hcons, ← hih]
          simp [Option.or]

/-- Helper: shape of a deterministic scan entry — in range, and pointing
at a line that has the reported defect. -/
lemma detScan_mem {b : BugType} {m : Nat} :
    ∀ {lines : List (List Char)} {sL sI : Bool} {n : Nat},
      (b, m) ∈ detScan sL sI n lines →
      n ≤ m ∧ m - n < lines.length ∧
      ((b = .LINTING ∧ hasTrailingWs (lines.getD (m - n) []) = true) ∨
       (b = .INDENTATION ∧ startsWithTab (lines.getD (m - n) []) = true)) := by
  intro lines
  induction lines with
  | nil => intro sL sI n h; simp [detScan] at h
  | cons l rest ih =>
      intro sL sI n h
      rw [detScan] at h
      by_cases h1 : (!sL && hasTrailingWs l) = true
      · rw [if_pos h1] at h
        rcases List.mem_cons.mp h with heq | hmem
        · simp only [Prod.mk.injEq] at heq
          obtain ⟨hb, hm⟩ := heq
          subst hb
          subst hm
          rw [Bool.and_eq_true] at h1
          refine ⟨le_refl m, by simp, Or.inl ⟨rfl, ?_⟩⟩
          simpa using h1.2
        · obtain ⟨h2, h3, h4⟩ := ih hmem
          refine ⟨by omega, by simp only [List.length_cons]; omega, ?_⟩
          have hidx : m - n = (m - (n + 1)) + 1 := by omega
          rw [hidx, List.getD_cons_succ]
          exact h4
      · rw [if_neg h1] at h
        by_cases h2 : (!sI && startsWithTab l) = true
        · rw [if_pos h2] at h
          rcases List.mem_cons.mp h with heq | hmem
          · simp only [Prod.mk.injEq] at heq
            obtain ⟨hb, hm⟩ := heq
            subst hb
            subst hm
            rw [Bool.and_eq_true] at h2
            refine ⟨le_refl m, by simp, Or.inr ⟨rfl, ?_⟩⟩
            simpa using h2.2
          · obtain ⟨h3, h4, h5⟩ := ih hmem
            refine ⟨by omega, by simp only [List.length_cons]; omega, ?_⟩
            have hidx : m - n = (m - (n + 1)) + 1 := by omega
            rw [hidx, List.getD_cons_succ]
            exact h5
        · rw [if_neg h2] at h
          obtain ⟨h3, h4, h5⟩ := ih h
          refine ⟨by omega, by simp only [List.length_cons]; omega, ?_⟩
          have hidx : m - n = (m - (n + 1)) + 1 := by omega
          rw [hidx, List.getD_cons_succ]
          exact h5

/-- Helper: scan entries carry strictly increasing line numbers. -/
lemma detScan_sorted :
    ∀ (lines : List (List Char)) (sL sI : Bool) (n : Nat),
      (detScan sL sI n lines).Pairwise (fun a b => a.2 < b.2) := by
  intro lines
  induction lines with
  | nil => intro sL sI n; exact List.Pairwise.nil
  | cons l rest ih =>
      intro sL sI n
      rw [detScan]
      by_cases h1 : (!sL && hasTrailingWs l) = true
      · rw [if_pos h1]
        refine List.Pairwise.cons ?_ (ih true sI (n + 1))
        intro e he
        rcases e with ⟨b, m⟩
        have := (detScan_mem he).1
        simpa using by omega
      · rw [if_neg h1]
        by_cases h2 : (!sI && startsWithTab l) = true
        · rw [if_pos h2]
          refine List.Pairwise.cons ?_ (ih sL true (n + 1))
          intro e he
          rcases e with ⟨b, m⟩
          have := (detScan_mem he).1
          simpa using by omega
        · rw [if_neg h2]
          exact ih sL sI (n + 1)

/-- Helper: a trailing-whitespace line is always claimed when the
LINTING slot is free. -/
lemma detScan_exists_L :
    ∀ (lines : List (List Char)) (sI : Bool) (n : Nat),
      (∃ l ∈ lines, hasTrailingWs l = true) →
      ∃ m, (BugType.LINTING, m) ∈ detScan false sI n lines := by
  intro lines
  induction lines with
  | nil => intro sI n h; simp at h
  | cons l rest ih =>
      intro sI n h
      rw [detScan]
      by_cases hl : hasTrailingWs l = true
      · rw [if_pos (by simp [hl])]
        exact ⟨n, List.mem_cons_self _ _⟩
      · have hrest : ∃ l' ∈ rest, hasTrailingWs l' = true := by
          rcases h with ⟨l', hmem, hws⟩
          rcases List.mem_cons.mp hmem with heq | hmem'
          · exact absurd (heq ▸ hws) hl
          · exact ⟨l', hmem', hws⟩
        rw [if_neg (by simp [hl])]
        by_cases h2 : (!sI && startsWithTab l) = true
        · rw [if_pos h2]
          obtain ⟨m, hm⟩ := ih true (n + 1) hrest
          exact ⟨m, List.mem_cons_of_mem _ hm⟩
        · rw [if_neg h2]
          exact ih sI (n + 1) hrest

/-- Helper: with no trailing-whitespace line anywhere, a tab-indented
line is always claimed when the INDENTATION slot is free. -/
lemma detScan_exists_I :
    ∀ (lines : List (List Char)) (sL : Bool) (n : Nat),
      (∀ l ∈ lines, hasTrailingWs l = false) →
      (∃ l ∈ lines, startsWithTab l = true) →
      ∃ m, (BugType.INDENTATION, m) ∈ detScan sL false n lines := by
  intro lines
  induction lines with
  | nil => intro sL n _ h; simp at h
  | cons l rest ih =>
      intro sL n hnoL h
      rw [detScan]
      have hl : hasTrailingWs l = false := hnoL l (List.mem_cons_self _ _)
      rw [if_neg (by simp [hl])]
      by_cases hi : startsWithTab l = true
      · rw [if_pos (by simp [hi])]
        exact ⟨n, List.mem_cons_self _ _⟩
      · have hrest : ∃ l' ∈ rest, startsWithTab l' = true := by
          rcases h with ⟨l', hmem, hws⟩
          rcases List.mem_cons.mp hmem with heq | hmem'
          · exact absurd (heq ▸ hws) hi
          · exact ⟨l', hmem', hws⟩
        rw [if_neg (by simp [hi])]
        exact ih sL (n + 1) (fun l' hl' => hnoL l' (List.mem_cons_of_mem _ hl'))
          hrest

/-- Helper: a pass keeps the number of lines. -/
lemma detPass_length :
    ∀ (lines : List (List Char)) (sL sI : Bool),
      (detPass sL sI lines).length = lines.length := by
  intro lines
  induction lines with
  | nil => intro sL sI; rfl
  | cons l rest ih =>
      intro sL sI
      rw [detPass]
      by_cases h1 : (!sL && hasTrailingWs l) = true
      · rw [if_pos h1]
        simp [ih]
      · rw [if_neg h1]
        by_cases h2 : (!sI && startsWithTab l) = true
        · rw [if_pos h2]
          simp [ih]
        · rw [if_neg h2]
          simp [ih]

/-- Helper: a pass maps each line to itself or one of its two fixes. -/
lemma detPass_mem :
    ∀ (lines : List (List Char)) (sL sI : Bool) (l' : List Char),
      l' ∈ detPass sL sI lines →
      ∃ l ∈ lines, l' = l ∨ l' = trimEnd l ∨ l' = replaceTabs l := by
  intro lines
  induction lines with
  | nil => intro sL sI l' h; simp [detPass] at h
  | cons l rest ih =>
      intro sL sI l' h
      rw [detPass] at h
      by_cases h1 : (!sL && hasTrailingWs l) = true
      · rw [if_pos h1] at h
        rcases List.mem_cons.mp h with heq | hmem
        · exact ⟨l, List.mem_cons_self _ _, Or.inr (Or.inl heq)⟩
        · obtain ⟨l0, hl0, hc⟩ := ih true sI l' hmem
          exact ⟨l0, List.mem_cons_of_mem _ hl0, hc⟩
      · rw [if_neg h1] at h
        by_cases h2 : (!sI && startsWithTab l) = true
        · rw [if_pos h2] at h
          rcases List.mem_cons.mp h with heq | hmem
          · exact ⟨l, List.mem_cons_self _ _, Or.inr (Or.inr heq)⟩
          · obtain ⟨l0, hl0, hc⟩ := ih sL true l' hmem
            exact ⟨l0, List.mem_cons_of_mem _ hl0, hc⟩
        · rw [if_neg h2] at h
          rcases List.mem_cons.mp h with heq | hmem
          · exact ⟨l, List.mem_cons_self _ _, Or.inl heq⟩
          · obtain ⟨l0, hl0, hc⟩ := ih sL sI l' hmem
            exact ⟨l0, List.mem_cons_of_mem _ hl0, hc⟩

/-- Helper: a pass clears exactly one trailing-whitespace line when the
LINTING slot is free and one exists, and none otherwise. -/
lemma detPass_countL :
    ∀ (lines : List (List Char)) (sL sI : Bool),
      (detPass sL sI lines).countP hasTrailingWs =
        lines.countP hasTrailingWs -
          (if sL = false ∧ ∃ l ∈ lines, hasTrailingWs l = true then 1
           else 0) := by
  intro lines
  induction lines with
  | nil => intro sL sI; simp [detPass]
  | cons l rest ih =>
      intro sL sI
      rw [detPass]
      by_cases h1 : (!sL && hasTrailingWs l) = true
      · rw [Bool.and_eq_true, Bool.not_eq_true'] at h1
        obtain ⟨hsL, hl⟩ := h1
        rw [if_pos (by simp [hsL, hl])]
        rw [List.countP_cons, List.countP_cons, ih true sI,
          hasTrailingWs_trimEnd]
        have hcond : ¬(true = false ∧ ∃ l' ∈ rest, hasTrailingWs l' = true) := by
          simp
        rw [if_neg hcond,
          if_pos (⟨hsL, ⟨l, List.mem_cons_self _ _, hl⟩⟩ :
            sL = false ∧ ∃ l' ∈ l :: rest, hasTrailingWs l' = true)]
        simp [hl]
      · rw [if_neg (by simpa using h1)]
        have hsplit : sL = true ∨ hasTrailingWs l = false := by
          rcases Bool.not_eq_true _ ▸ h1 with h
          by_cases hs : sL = true
          · exact Or.inl hs
          · right
            have hs' : sL = false := by
              cases sL
              · rfl
              · exact absurd rfl hs
            rw [hs'] at h1
            simpa using h1
        have hcondeq :
            (sL = false ∧ ∃ l' ∈ l :: rest, hasTrailingWs l' = true) ↔
            (sL = false ∧ ∃ l' ∈ rest, hasTrailingWs l' = true) := by
          rcases hsplit with hs | hws
          · constructor
            · rintro ⟨hf, -⟩
              rw [hs] at hf
              exact absurd hf (by simp)
            · rintro ⟨hf, -⟩
              rw [hs] at hf
              exact absurd hf (by simp)
          · constructor
            · rintro ⟨hf, l', hmem, hws'⟩
              rcases List.mem_cons.mp hmem with heq | hmem'
              · exact absurd (heq ▸ hws') (by simp [hws])
              · exact ⟨hf, l', hmem', hws'⟩
            · rintro ⟨hf, l', hmem', hws'⟩
              exact ⟨hf, l', List.mem_cons_of_mem _ hmem', hws'⟩
        by_cases h2 : (!sI && startsWithTab l) = true
        · rw [if_pos h2, List.countP_cons, List.countP_cons,
            ih sL true, hasTrailingWs_replaceTabs]
          by_cases hc : sL = false ∧ ∃ l' ∈ rest, hasTrailingWs l' = true
          · rw [if_pos hc, if_pos (hcondeq.mpr hc)]
            have hpos : 0 < rest.countP hasTrailingWs := by
              obtain ⟨-, l', hmem', hws'⟩ := hc
              exact List.countP_pos_iff.mpr ⟨l', hmem', hws'⟩
            omega
          · rw [if_neg hc, if_neg (fun hx => hc (hcondeq.mp hx))]
            omega
        · rw [if_neg h2, List.countP_cons, List.countP_cons, ih sL sI]
          by_cases hc : sL = false ∧ ∃ l' ∈ rest, hasTrailingWs l' = true
          · rw [if_pos hc, if_pos (hcondeq.mpr hc)]
            have hpos : 0 < rest.countP hasTrailingWs := by
              obtain ⟨-, l', hmem', hws'⟩ := hc
              exact List.countP_pos_iff.mpr ⟨l', hmem', hws'⟩
            omega
          · rw [if_neg hc, if_neg (fun hx => hc (hcondeq.mp hx))]
            omega

/-- Helper: a pass never creates tab indentation. -/
lemma detPass_countI_le :
    ∀ (lines : List (List Char)) (sL sI : Bool),
      (detPass sL sI lines).countP startsWithTab ≤
        lines.countP startsWithTab := by
  intro lines
  induction lines with
  | nil => intro sL sI; simp [detPass]
  | cons l rest ih =>
      intro sL sI
      rw [detPass]
      by_cases h1 : (!sL && hasTrailingWs l) = true
      · rw [if_pos h1, List.countP_cons, List.countP_cons]
        have hle : (if startsWithTab (trimEnd l) = true then 1 else 0) ≤
            (if startsWithTab l = true then 1 else 0) := by
          by_cases ht : startsWithTab (trimEnd l) = true
          · have hi : startsWithTab l = true := by
              by_contra hi'
              have hif : startsWithTab l = false := by
                simpa using hi'
              rw [startsWithTab_trimEnd hif] at ht
              exact absurd ht (by simp)
            rw [if_pos ht, if_pos hi]
          · rw [if_neg ht]
            exact Nat.zero_le _
        have := ih true sI
        omega
      · rw [if_neg h1]
        by_cases h2 : (!sI && startsWithTab l) = true
        · rw [if_pos h2, List.countP_cons, List.countP_cons,
            startsWithTab_replaceTabs]
          have := ih sL true
          simp only [Bool.false_eq_true, if_false]
          omega
        · rw [if_neg h2, List.countP_cons, List.countP_cons]
          have := ih sL sI
          omega

/-- Helper: with no trailing-whitespace line anywhere and a free
INDENTATION slot, a pass strictly reduces the tab-indented lines. -/
lemma detPass_countI_strict :
    ∀ (lines : List (List Char)) (sL : Bool),
      (∀ l ∈ lines, hasTrailingWs l = false) →
      (∃ l ∈ lines, startsWithTab l = true) →
      (detPass sL false lines).countP startsWithTab <
        lines.countP startsWithTab := by
  intro lines
  induction lines with
  | nil => intro sL _ h; simp at h
  | cons l rest ih =>
      intro sL hnoL h
      rw [detPass]
      have hl : hasTrailingWs l = false := hnoL l (List.mem_cons_self _ _)
      rw [if_neg (by simp [hl])]
      by_cases hi : startsWithTab l = true
      · rw [if_pos (by simp [hi]), List.countP_cons, List.countP_cons,
          startsWithTab_replaceTabs]
        have := detPass_countI_le rest sL true
        simp only [Bool.false_eq_true, if_false, hi, if_true]
        omega
      · have hrest : ∃ l' ∈ rest, startsWithTab l' = true := by
          rcases h with ⟨l', hmem, hws⟩
          rcases List.mem_cons.mp hmem with heq | hmem'
          · exact absurd (heq ▸ hws) hi
          · exact ⟨l', hmem', hws⟩
        rw [if_neg (by simp [hi]), List.countP_cons, List.countP_cons]
        have := ih sL (fun l' hl' => hnoL l' (List.mem_cons_of_mem _ hl'))
          hrest
        omega

/-- Helper: lines coming out of a pass on a detSafe file are still free
of the non-deterministic category patterns. -/
lemma detPass_otherFree {lines : List (List Char)} {sL sI : Bool}
    (hsafe : ∀ l ∈ lines, detSafe l = true) :
    ∀ l' ∈ detPass sL sI lines, otherFree l' = true := by
  intro l' h
  obtain ⟨l, hl, hc⟩ := detPass_mem lines sL sI l' h
  have hs := hsafe l hl
  rw [detSafe, Bool.and_eq_true, Bool.and_eq_true] at hs
  rcases hc with rfl | rfl | rfl
  · exact hs.1.1
  · exact hs.1.2
  · exact hs.2

/-- Issue record the scanner produces for a deterministic entry. -/
def mkDetIssue (filePath : String) (e : BugType × Nat) : DetectedIssue :=
  { filePath := filePath, bugType := e.1, lineNumber := e.2
    fixSuggestion :=
      if e.1 = .LINTING then "remove trailing whitespace"
      else "replace tab indentation with spaces" }

/-- Helper: on an otherFree line, the scanner's per-line check reduces to
the two deterministic categories. -/
lemma detectLine_detOnly (flags : ScanFlags) (l : List Char)
    (hfree : otherFree l = true) :
    detectLine flags l =
      if !flags.seenLinting && hasTrailingWs l then
        (some (.LINTING, "remove trailing whitespace"),
         { flags with seenLinting := true })
      else if !flags.seenIndent && startsWithTab l then
        (some (.INDENTATION, "replace tab indentation with spaces"),
         { flags with seenIndent := true })
      else (none, flags) := by
  rw [otherFree, Bool.and_eq_true, Bool.and_eq_true] at hfree
  obtain ⟨⟨hImp, hTyp⟩, hLog⟩ := hfree
  rw [Bool.not_eq_true', Bool.or_eq_false_iff] at hImp hTyp hLog
  rw [detectLine]
  simp only [hImp.1, hImp.2, hTyp.1, hTyp.2, hLog.1, hLog.2,
    Bool.or_self, Bool.and_false, Bool.false_eq_true, if_false]

/-- Helper: on an otherFree file, the scanner loop coincides with the
deterministic scan (the three-issue cap can never bind, since at most
one LINTING and one INDENTATION issue exist). -/
lemma scanGo_detOnly (filePath : String) :
    ∀ (lines : List (List Char)) (flags : ScanFlags) (n slots : Nat),
      (∀ l ∈ lines, otherFree l = true) →
      (if flags.seenLinting then 0 else 1) +
        (if flags.seenIndent then 0 else 1) < slots →
      scanGo filePath flags n slots lines =
        (detScan flags.seenLinting flags.seenIndent n lines).map
          (mkDetIssue filePath) := by
  intro lines
  induction lines with
  | nil => intro flags n slots _ _; rfl
  | cons l rest ih =>
      intro flags n slots hfree hslots
      have hfree0 : otherFree l = true := hfree l (List.mem_cons_self _ _)
      have hfree1 : ∀ l' ∈ rest, otherFree l' = true :=
        fun l' hl' => hfree l' (List.mem_cons_of_mem _ hl')
      by_cases h1 : (!flags.seenLinting && hasTrailingWs l) = true
      · have hsL : flags.seenLinting = false := by
          rw [Bool.and_eq_true, Bool.not_eq_true'] at h1
          exact h1.1
        rw [hsL] at hslots
        simp only [Bool.false_eq_true, if_false] at hslots
        have hslots1 : ¬ slots ≤ 1 := by omega
        have hstep : scanGo filePath flags n slots (l :: rest) =
            ({ filePath := filePath, bugType := BugType.LINTING
               lineNumber := n
               fixSuggestion := "remove trailing whitespace" } : DetectedIssue) ::
              scanGo filePath { flags with seenLinting := true } (n + 1)
                (slots - 1) rest := by
          rw [scanGo, detectLine_detOnly flags l hfree0, if_pos h1]
          exact if_neg hslots1
        rw [hstep, detScan, if_pos h1, List.map_cons]
        refine congrArg₂ _ (by simp [mkDetIssue]) ?_
        have htail := ih { flags with seenLinting := true } (n + 1) (slots - 1)
          hfree1 (by simp; omega)
        simpa using htail
      · by_cases h2 : (!flags.seenIndent && startsWithTab l) = true
        · have hsI : flags.seenIndent = false := by
            rw [Bool.and_eq_true, Bool.not_eq_true'] at h2
            exact h2.1
          rw [hsI] at hslots
          simp only [Bool.false_eq_true, if_false] at hslots
          have hslots1 : ¬ slots ≤ 1 := by omega
          have hstep : scanGo filePath flags n slots (l :: rest) =
              ({ filePath := filePath, bugType := BugType.INDENTATION
                 lineNumber := n
                 fixSuggestion :=
                   "replace tab indentation with spaces" } : DetectedIssue) ::
                scanGo filePath { flags with seenIndent := true } (n + 1)
                  (slots - 1) rest := by
            rw [scanGo, detectLine_detOnly flags l hfree0, if_neg h1,
              if_pos h2]
            exact if_neg hslots1
          rw [hstep, detScan, if_neg h1, if_pos h2, List.map_cons]
          refine congrArg₂ _ (by simp [mkDetIssue]) ?_
          have htail := ih { flags with seenIndent := true } (n + 1)
            (slots - 1) hfree1 (by simp; omega)
          simpa using htail
        · have hstep : scanGo filePath flags n slots (l :: rest) =
              scanGo filePath flags (n + 1) slots rest := by
            rw [scanGo, detectLine_detOnly flags l hfree0, if_neg h1,
              if_neg h2]
          rw [hstep, detScan, if_neg h1, if_neg h2]
          exact ih flags (n + 1) slots hfree1 hslots

/-- Helper: on an otherFree file the scanner output is exactly the
deterministic scan. -/
lemma detectIssuesInLines_detOnly (filePath : String)
    (lines : List (List Char)) (hfree : ∀ l ∈ lines, otherFree l = true) :
    detectIssuesInLines filePath lines =
      (detScan false false 1 lines).map (mkDetIssue filePath) := by
  rw [detectIssuesInLines]
  exact scanGo_detOnly filePath lines ScanFlags.init 1 3 hfree
    (by simp [ScanFlags.init])

/-- Helper: for in-range issues whose fixes are replacements (never
deletions), the loop's final buffer keeps its length, keeps untouched
lines, and holds each issue's replacement at the issue's line. -/
lemma patchLoop_buffer (orig : List (List Char)) :
    ∀ (l : List DetectedIssue) (buf : List (List Char)),
      l.Pairwise (fun a b => b.lineNumber < a.lineNumber) →
      (∀ i ∈ l, buf.take i.lineNumber = orig.take i.lineNumber) →
      buf.length = orig.length →
      (∀ i ∈ l, 1 ≤ i.lineNumber ∧ i.lineNumber ≤ orig.length) →
      (∀ i ∈ l, ∃ rep descr,
        computeLineFix (orig.getD (i.lineNumber - 1) []) i.bugType =
          some { replacement := some rep, description := descr }) →
      (patchLoop buf l).1.length = buf.length ∧
      (∀ j : Nat, (∀ i ∈ l, i.lineNumber ≠ j + 1) →
        ((patchLoop buf l).1)[j]? = buf[j]?) ∧
      (∀ i ∈ l, ((patchLoop buf l).1)[i.lineNumber - 1]? =
        (computeLineFix (orig.getD (i.lineNumber - 1) [])
          i.bugType).bind LineFix.replacement) := by
  intro l
  induction l with
  | nil =>
      intro buf _ _ _ _ _
      exact ⟨rfl, fun j _ => rfl, fun i hi => absurd hi (by simp)⟩
  | cons issue rest ih =>
      intro buf hpw hinv hlen hrng hfix
      rw [List.pairwise_cons] at hpw
      obtain ⟨hlt, hpw'⟩ := hpw
      have htake := hinv issue (List.mem_cons_self _ _)
      have hr := hrng issue (List.mem_cons_self _ _)
      obtain ⟨rep, descr, heq⟩ := hfix issue (List.mem_cons_self _ _)
      have hline : buf.getD (issue.lineNumber - 1) [] =
          orig.getD (issue.lineNumber - 1) [] :=
        getD_eq_of_take_eq htake (by omega)
      have hoor : ¬(issue.lineNumber = 0 ∨ buf.length < issue.lineNumber) := by
        omega
      have hidx : issue.lineNumber - 1 < buf.length := by
        omega
      have hstep : patchStep buf issue =
          (buf.set (issue.lineNumber - 1) rep,
           { filePath := issue.filePath, bugType := issue.bugType
             lineNumber := issue.lineNumber, applied := true
             description := descr }) := by
        rw [patchStep, if_neg hoor]
        simp only [hline, heq]
      have hloop : (patchLoop buf (issue :: rest)).1 =
          (patchLoop (buf.set (issue.lineNumber - 1) rep) rest).1 := by
        rw [patchLoop, hstep]
      have hinv' : ∀ i ∈ rest,
          (buf.set (issue.lineNumber - 1) rep).take i.lineNumber =
            orig.take i.lineNumber := by
        intro b hb
        rw [take_set_of_le buf _ _ rep (by have := hlt b hb; omega)]
        exact hinv b (List.mem_cons_of_mem _ hb)
      have hlen' : (buf.set (issue.lineNumber - 1) rep).length = orig.length := by
        rw [List.length_set]
        exact hlen
      obtain ⟨ihlen, ihkeep, ihfix⟩ := ih (buf.set (issue.lineNumber - 1) rep)
        hpw' hinv' hlen'
        (fun i hi => hrng i (List.mem_cons_of_mem _ hi))
        (fun i hi => hfix i (List.mem_cons_of_mem _ hi))
      refine ⟨?_, ?_, ?_⟩
      · rw [hloop, ihlen, List.length_set]
      · intro j hj
        rw [hloop, ihkeep j (fun i hi => hj i (List.mem_cons_of_mem _ hi))]
        have hne : issue.lineNumber - 1 ≠ j := by
          have := hj issue (List.mem_cons_self _ _)
          omega
        exact List.getElem?_set_ne hne
      · intro i hi
        rcases List.mem_cons.mp hi with hieq | himem
        · subst hieq
          have hkeep := ihkeep (i.lineNumber - 1)
            (fun b hb => by have := hlt b hb; omega)
          rw [hloop, hkeep, List.getElem?_set_self hidx, heq]
          rfl
        · exact hloop ▸ ihfix i himem

/-- Line transformation a pass applies at absolute line number m, given
the deterministic scan entries. -/
def passTransform (entries : List (BugType × Nat)) (m : Nat)
    (l : List Char) : List Char :=
  if (BugType.LINTING, m) ∈ entries then trimEnd l
  else if (BugType.INDENTATION, m) ∈ entries then replaceTabs l
  else l

/-- Helper: an entry at a different line number does not affect the
transform. -/
lemma passTransform_cons_ne {b0 : BugType} {n2 m : Nat}
    (h : ¬ m = n2) (tail : List (BugType × Nat)) (l : List Char) :
    passTransform ((b0, n2) :: tail) m l = passTransform tail m l := by
  simp only [passTransform, List.mem_cons, Prod.mk.injEq, h, and_false,
    false_or]

/-- Helper: the pass output at index j is the transform of the input at
index j, keyed by the scan entry at line number n + j. -/
lemma detPass_getElem :
    ∀ (lines : List (List Char)) (sL sI : Bool) (n j : Nat),
      (detPass sL sI lines)[j]? =
        (lines[j]?).map
          (fun l => passTransform (detScan sL sI n lines) (n + j) l) := by
  intro lines
  induction lines with
  | nil => intro sL sI n j; simp [detPass, detScan]
  | cons l rest ih =>
      intro sL sI n j
      have hmono : ∀ (sL' sI' : Bool) (b : BugType) (m : Nat),
          (b, m) ∈ detScan sL' sI' (n + 1) rest → n + 1 ≤ m :=
        fun sL' sI' b m hm => (detScan_mem hm).1
      rw [detPass, detScan]
      by_cases h1 : (!sL && hasTrailingWs l) = true
      · rw [if_pos h1, if_pos h1]
        cases j with
        | zero =>
            simp only [List.getElem?_cons_zero, Option.map_some']
            simp [passTransform]
        | succ j' =>
            simp only [List.getElem?_cons_succ]
            rw [ih true sI (n + 1) j']
            cases hget : rest[j']? with
            | none => rfl
            | some l0 =>
                simp only [Option.map_some']
                refine congrArg some ?_
                rw [show n + (j' + 1) = n + 1 + j' from by omega,
                  passTransform_cons_ne (by omega)]
      · rw [if_neg h1, if_neg h1]
        by_cases h2 : (!sI && startsWithTab l) = true
        · rw [if_pos h2, if_pos h2]
          cases j with
          | zero =>
              simp only [List.getElem?_cons_zero, Option.map_some']
              refine congrArg some ?_
              have hnoL : ¬ (BugType.LINTING, n + 0) ∈
                  ((BugType.INDENTATION, n) :: detScan sL true (n + 1) rest) := by
                intro hmem
                rcases List.mem_cons.mp hmem with heq | hmem'
                · simp at heq
                · have := hmono _ _ _ _ hmem'
                  omega
              simp only [passTransform]
              rw [if_neg hnoL, if_pos (by simp)]
          | succ j' =>
              simp only [List.getElem?_cons_succ]
              rw [ih sL true (n + 1) j']
              cases hget : rest[j']? with
              | none => rfl
              | some l0 =>
                  simp only [Option.map_some']
                  refine congrArg some ?_
                  rw [show n + (j' + 1) = n + 1 + j' from by omega,
                    passTransform_cons_ne (by omega)]
        · rw [if_neg h2, if_neg h2]
          cases j with
          | zero =>
              simp only [List.getElem?_cons_zero, Option.map_some']
              refine congrArg some ?_
              have hnoL : ¬ (BugType.LINTING, n + 0) ∈
                  detScan sL sI (n + 1) rest := by
                intro hmem
                have := hmono _ _ _ _ hmem
                omega
              have hnoI : ¬ (BugType.INDENTATION, n + 0) ∈
                  detScan sL sI (n + 1) rest := by
                intro hmem
                have := hmono _ _ _ _ hmem
                omega
              simp only [passTransform]
              rw [if_neg hnoL, if_neg hnoI]
          | succ j' =>
              simp only [List.getElem?_cons_succ]
              rw [ih sL sI (n + 1) j']
              rw [show n + (j' + 1) = n + 1 + j' from by omega]

/-- Helper: on an otherFree file, one scan+patch pass acts exactly as the
deterministic pass — the claimed trailing-whitespace line is trimmed,
the claimed tab-indented line has tabs expanded, and nothing else moves. -/
lemma scanPatchPass_detOnly (lines : List (List Char))
    (hfree : ∀ l ∈ lines, otherFree l = true) :
    scanPatchPass lines = detPass false false lines := by
  have hscan : detectIssuesInLines "repo/file" lines =
      (detScan false false 1 lines).map (mkDetIssue "repo/file") :=
    detectIssuesInLines_detOnly "repo/file" lines hfree
  have hsortedE : (detScan false false 1 lines).Pairwise
      (fun a b => a.2 < b.2) := detScan_sorted lines false false 1
  have hdist : ((detScan false false 1 lines).map
      (mkDetIssue "repo/file")).Pairwise
      (fun a b => a.lineNumber ≠ b.lineNumber) := by
    refine List.Pairwise.map _ ?_ hsortedE
    intro a b hab
    simp only [mkDetIssue]
    omega
  have hdesc := sortIssuesDesc_strictDesc _ hdist
  have hmem : ∀ i ∈ sortIssuesDesc ((detScan false false 1 lines).map
      (mkDetIssue "repo/file")),
      ∃ e ∈ detScan false false 1 lines, i = mkDetIssue "repo/file" e := by
    intro i hi
    rw [sortIssuesDesc, List.mem_insertionSort] at hi
    obtain ⟨e, he, heq⟩ := List.mem_map.mp hi
    exact ⟨e, he, heq.symm⟩
  have hrng : ∀ i ∈ sortIssuesDesc ((detScan false false 1 lines).map
      (mkDetIssue "repo/file")),
      1 ≤ i.lineNumber ∧ i.lineNumber ≤ lines.length := by
    intro i hi
    obtain ⟨⟨b, m⟩, he, rfl⟩ := hmem i hi
    obtain ⟨h1, h2, -⟩ := detScan_mem he
    simp only [mkDetIssue]
    omega
  have hfix : ∀ i ∈ sortIssuesDesc ((detScan false false 1 lines).map
      (mkDetIssue "repo/file")),
      ∃ rep descr,
        computeLineFix (lines.getD (i.lineNumber - 1) []) i.bugType =
          some { replacement := some rep, description := descr } := by
    intro i hi
    obtain ⟨⟨b, m⟩, he, rfl⟩ := hmem i hi
    obtain ⟨h1, h2, h3⟩ := detScan_mem he
    simp only [mkDetIssue]
    rcases h3 with ⟨hb, hws⟩ | ⟨hb, htab⟩ <;> subst hb
    · exact ⟨_, _, computeLineFix_LINTING hws⟩
    · exact ⟨_, _, computeLineFix_INDENTATION htab⟩
  obtain ⟨hlen, hkeep, hfixed⟩ := patchLoop_buffer lines
    (sortIssuesDesc ((detScan false false 1 lines).map
      (mkDetIssue "repo/file")))
    lines hdesc (fun i _ => rfl) rfl hrng hfix
  have hpass : scanPatchPass lines =
      (patchLoop lines (sortIssuesDesc ((detScan false false 1 lines).map
        (mkDetIssue "repo/file")))).1 := by
    rw [scanPatchPass, hscan, patchSingleFile]
  apply List.ext_getElem?
  intro j
  rw [hpass, detPass_getElem lines false false 1 j]
  by_cases hj : j < lines.length
  · have hlj : lines[j]? = some (lines.getD j []) := by
      rw [List.getElem?_eq_getElem hj, List.getD_eq_getElem lines [] hj]
    by_cases hL : (BugType.LINTING, j + 1) ∈ detScan false false 1 lines
    · have hi : mkDetIssue "repo/file" (BugType.LINTING, j + 1) ∈
          sortIssuesDesc ((detScan false false 1 lines).map
            (mkDetIssue "repo/file")) := by
        rw [sortIssuesDesc, List.mem_insertionSort]
        exact List.mem_map_of_mem _ hL
      have hfx := hfixed _ hi
      obtain ⟨-, -, h3⟩ := detScan_mem hL
      have hws : hasTrailingWs (lines.getD j []) = true := by
        rcases h3 with ⟨-, hws⟩ | ⟨hb, -⟩
        · simpa using hws
        · simp at hb
      simp only [mkDetIssue] at hfx
      rw [Nat.add_sub_cancel] at hfx
      rw [hfx, computeLineFix_LINTING hws, hlj, Option.map_some']
      rw [passTransform, if_pos (by rw [Nat.add_comm]; exact hL)]
      rfl
    · by_cases hI : (BugType.INDENTATION, j + 1) ∈ detScan false false 1 lines
      · have hi : mkDetIssue "repo/file" (BugType.INDENTATION, j + 1) ∈
            sortIssuesDesc ((detScan false false 1 lines).map
              (mkDetIssue "repo/file")) := by
          rw [sortIssuesDesc, List.mem_insertionSort]
          exact List.mem_map_of_mem _ hI
        have hfx := hfixed _ hi
        obtain ⟨-, -, h3⟩ := detScan_mem hI
        have htab : startsWithTab (lines.getD j []) = true := by
          rcases h3 with ⟨hb, -⟩ | ⟨-, htab⟩
          · simp at hb
          · simpa using htab
        simp only [mkDetIssue] at hfx
        rw [Nat.add_sub_cancel] at hfx
        rw [hfx, computeLineFix_INDENTATION htab, hlj, Option.map_some']
        rw [passTransform, if_neg (by rw [Nat.add_comm]; exact hL),
          if_pos (by rw [Nat.add_comm]; exact hI)]
        rfl
      · have hnone : ∀ i ∈ sortIssuesDesc ((detScan false false 1 lines).map
            (mkDetIssue "repo/file")), i.lineNumber ≠ j + 1 := by
          intro i hi hln
          obtain ⟨⟨b, m⟩, he, rfl⟩ := hmem i hi
          simp only [mkDetIssue] at hln
          subst hln
          obtain ⟨-, -, h3⟩ := detScan_mem he
          rcases h3 with ⟨hb, -⟩ | ⟨hb, -⟩ <;> subst hb
          · exact hL he
          · exact hI he
        rw [hkeep j hnone, hlj, Option.map_some']
        rw [passTransform, if_neg (by rw [Nat.add_comm]; exact hL),
          if_neg (by rw [Nat.add_comm]; exact hI)]
  · have hjlen : lines.length ≤ j := Nat.le_of_not_lt hj
    rw [List.getElem?_eq_none hjlen, List.getElem?_eq_none (by omega : (patchLoop lines (sortIssuesDesc ((detScan false false 1 lines).map (mkDetIssue "repo/file")))).1.length ≤ j)]
    rfl

/-- A file with three trailing-whitespace lines. -/
def c6ThreeLineFile : List (List Char) :=
  ["a ".toList, "b ".toList, "c ".toList]

/-- C6 counterexample: the scanner caps each category at one issue per
file per pass, so running scan+patch twice on a file with three
trailing-whitespace lines still leaves a detectable deterministic issue
(the third line) after the second pass. -/
theorem c6_two_pass_counterexample :
    (detectIssuesInLines "repo/file"
        (scanPatchPass (scanPatchPass c6ThreeLineFile))).countP
      (fun i => i.bugType = BugType.LINTING ∨
        i.bugType = BugType.INDENTATION) ≠ 0 := by
  decide

/-- C6 amended: on a file whose lines (and their whitespace-fixed forms)
match no other category pattern, each scan+patch pass strictly decreases
the combined number of trailing-whitespace and tab-indented lines while
any remain, and when each deterministic category occurs on at most one
line, two passes leave no deterministic defect at all. -/
theorem c6_deterministic_two_pass (lines : List (List Char))
    (hsafe : ∀ l ∈ lines, detSafe l = true) :
    (detBits lines ≠ 0 →
      detBits (scanPatchPass lines) < detBits lines) ∧
    (lines.countP hasTrailingWs ≤ 1 →
      lines.countP startsWithTab ≤ 1 →
      ∀ l ∈ scanPatchPass (scanPatchPass lines),
        hasTrailingWs l = false ∧ startsWithTab l = false) := by
  have hfree : ∀ l ∈ lines, otherFree l = true := by
    intro l hl
    have := hsafe l hl
    rw [detSafe, Bool.and_eq_true, Bool.and_eq_true] at this
    exact this.1.1
  have hPE1 : scanPatchPass lines = detPass false false lines :=
    scanPatchPass_detOnly lines hfree
  constructor
  · intro hbits
    rw [hPE1, detBits, detBits] at *
    by_cases hexL : ∃ l ∈ lines, hasTrailingWs l = true
    · have h1 : (detPass false false lines).countP hasTrailingWs =
          lines.countP hasTrailingWs - 1 := by
        rw [detPass_countL]
        simp [hexL]
      have h2 := detPass_countI_le lines false false
      have hposL : 0 < lines.countP hasTrailingWs := by
        obtain ⟨l, hl, hw⟩ := hexL
        exact List.countP_pos_iff.mpr ⟨l, hl, by simpa using hw⟩
      omega
    · have hnoL : ∀ l ∈ lines, hasTrailingWs l = false := by
        intro a ha
        by_cases hw : hasTrailingWs a = true
        · exact absurd ⟨a, ha, hw⟩ hexL
        · simpa using hw
      have hcl0 : lines.countP hasTrailingWs = 0 := by
        rw [List.countP_eq_zero]
        intro a ha
        simp [hnoL a ha]
      have hexI : ∃ l ∈ lines, startsWithTab l = true := by
        have hpos : 0 < lines.countP startsWithTab := by
          omega
        obtain ⟨l, hl, hw⟩ := List.countP_pos_iff.mp hpos
        exact ⟨l, hl, by simpa using hw⟩
      have h1 : (detPass false false lines).countP hasTrailingWs = 0 := by
        rw [detPass_countL, hcl0]
        omega
      have h2 := detPass_countI_strict lines false hnoL hexI
      omega
  · intro hL1 hI1
    have hfree1 : ∀ l ∈ detPass false false lines, otherFree l = true :=
      detPass_otherFree hsafe
    have hPE2 : scanPatchPass (detPass false false lines) =
        detPass false false (detPass false false lines) :=
      scanPatchPass_detOnly _ hfree1
    rw [hPE1, hPE2]
    have hcl1 : (detPass false false lines).countP hasTrailingWs = 0 := by
      rw [detPass_countL]
      by_cases hex : ∃ l ∈ lines, hasTrailingWs l = true
      · have hposL : 0 < lines.countP hasTrailingWs := by
          obtain ⟨l, hl, hw⟩ := hex
          exact List.countP_pos_iff.mpr ⟨l, hl, by simpa using hw⟩
        rw [if_pos ⟨rfl, hex⟩]
        omega
      · have hcl0 : lines.countP hasTrailingWs = 0 := by
          rw [List.countP_eq_zero]
          intro a ha
          by_cases hw : hasTrailingWs a = true
          · exact absurd ⟨a, ha, hw⟩ hex
          · simpa using hw
        rw [hcl0]
        omega
    have hnoL1 : ∀ l ∈ detPass false false lines, hasTrailingWs l = false := by
      intro a ha
      have := List.countP_eq_zero.mp hcl1 a ha
      simpa using this
    have hci1 : (detPass false false lines).countP startsWithTab ≤ 1 :=
      le_trans (detPass_countI_le lines false false) hI1
    have hcl2 : (detPass false false
        (detPass false false lines)).countP hasTrailingWs = 0 := by
      rw [detPass_countL]
      have hnone : ¬ ∃ l ∈ detPass false false lines,
          hasTrailingWs l = true := by
        rintro ⟨l, hl, hw⟩
        rw [hnoL1 l hl] at hw
        exact absurd hw (by simp)
      rw [hcl1]
      omega
    have hci2 : (detPass false false
        (detPass false false lines)).countP startsWithTab = 0 := by
      by_cases hex : ∃ l ∈ detPass false false lines, startsWithTab l = true
      · have := detPass_countI_strict (detPass false false lines) false
          hnoL1 hex
        omega
      · have h0 : (detPass false false lines).countP startsWithTab = 0 := by
          rw [List.countP_eq_zero]
          intro a ha
          by_cases hw : startsWithTab a = true
          · exact absurd ⟨a, ha, hw⟩ hex
          · simpa using hw
        have := detPass_countI_le (detPass false false lines) false false
        omega
    intro l hl
    constructor
    · have := List.countP_eq_zero.mp hcl2 l hl
      simpa using this
    · have := List.countP_eq_zero.mp hci2 l hl
      simpa using this

/-- Witness for C6's amended statement at a one-defect-per-category
file. -/
theorem c6_deterministic_two_pass_witness :
    (∀ l ∈ (["a ".toList, "\tb".toList] : List (List Char)),
      detSafe l = true) ∧
    (∀ l ∈ scanPatchPass (scanPatchPass ["a ".toList, "\tb".toList]),
      hasTrailingWs l = false ∧ startsWithTab l = false) := by
  refine ⟨by decide, ?_⟩
  exact (c6_deterministic_two_pass ["a ".toList, "\tb".toList]
    (by decide)).2 (by decide) (by decide)
